import Mathlib

/-!
Verification development for the Notion-to-blog sync program
(`notionsync.py`).  The program walks a tree of JSON "blocks" fetched from
a content API, renders them to HTML, extracts post metadata from a JSON
property bag, and produces a sorted collection of blog posts.

The embedding works on a JSON value type mirroring the Python dicts the
program manipulates.  Pure renderer code is embedded as total functions
(the renderers are only reached with schema-conformant dict inputs; the
few places where Python would raise `AttributeError` on a non-dict
receiver are noted in comments).  The property extractors, which the
orchestrator wraps in a try/except, are embedded in `Except String` so
that raised exceptions are observable.
-/

/-- JSON values, the shape of the parsed API payloads the Python code
manipulates (numbers never occur in the code paths under study). -/
inductive Json where
  | null : Json
  | bool (b : Bool) : Json
  | str (s : String) : Json
  | arr (elems : List Json) : Json
  | obj (fields : List (String × Json)) : Json

/-- First binding of a key in an association list (API objects have
unique keys, so this is Python dict lookup). -/
def Json.lookupField : List (String × Json) → String → Option Json
  | [], _ => none
  | (k, v) :: rest, key => if k = key then some v else Json.lookupField rest key

/-- Model of `d.get(k)` / `d.get(k, default)` on a dict receiver.
Python's `.get` exists only on dicts; on a non-dict receiver it raises
`AttributeError`.  This total version returns `none` there; the
renderers below only meet dict receivers on schema-conformant input,
and the extractors use the `Except`-valued `pyGet` instead. -/
def Json.get : Json → String → Option Json
  | Json.obj fields, key => Json.lookupField fields key
  | _, _ => none

/-- Truthiness of a value under Python's `if`/`or`: `None`, `False`,
empty string, empty list and empty dict are falsy. -/
def Json.truthy : Json → Bool
  | Json.null => false
  | Json.bool b => b
  | Json.str s => !(s == "")
  | Json.arr elems => !elems.isEmpty
  | Json.obj fields => !fields.isEmpty

/-- Truthiness of an optional value (`None` for a missing one). -/
def truthyOpt : Option Json → Bool
  | none => false
  | some j => j.truthy

/-- Model of Python's `a or b` over two possibly-missing values: the
first operand if it is truthy, otherwise the second. -/
def pyOr (a b : Option Json) : Option Json :=
  match a with
  | some v => if v.truthy then some v else b
  | none => b

/-- Model of `d.get(k)` with the `AttributeError` on non-dict receivers
made explicit. -/
def pyGet (j : Json) (k : String) : Except String (Option Json) :=
  match j with
  | Json.obj fields => Except.ok (Json.lookupField fields k)
  | _ => Except.error "AttributeError: get"

/-- Model of `d.get(k, dflt)` with the `AttributeError` made explicit. -/
def pyGetD (j : Json) (k : String) (dflt : Json) : Except String Json :=
  (pyGet j k).map (fun o => o.getD dflt)

/-- Model of subscription `d[k]` by a string key: `KeyError` when the
key is missing, `TypeError` on non-dict receivers. -/
def pyIndexS (j : Json) (k : String) : Except String Json :=
  match j with
  | Json.obj fields =>
    match Json.lookupField fields k with
    | some v => Except.ok v
    | none => Except.error ("KeyError: " ++ k)
  | _ => Except.error "TypeError: value is not subscriptable by a string"

/-- Model of subscription `x[i]` by an integer index (lists index into
elements, strings into one-character strings). -/
def pyIndexNat (j : Json) (i : Nat) : Except String Json :=
  match j with
  | Json.arr elems =>
    match elems[i]? with
    | some v => Except.ok v
    | none => Except.error "IndexError: list index out of range"
  | Json.str s =>
    match s.data[i]? with
    | some c => Except.ok (Json.str (String.mk [c]))
    | none => Except.error "IndexError: string index out of range"
  | _ => Except.error "TypeError: value is not subscriptable by an integer"

/-- Model of `for x in j`: lists yield elements, strings yield
one-character strings, dicts yield their keys; other values raise
`TypeError`. -/
def pyIterFor (j : Json) : Except String (List Json) :=
  match j with
  | Json.arr elems => Except.ok elems
  | Json.str s => Except.ok (s.data.map (fun c => Json.str (String.mk [c])))
  | Json.obj fields => Except.ok (fields.map (fun kv => Json.str kv.1))
  | _ => Except.error "TypeError: value is not iterable"

/-- Model of the string check `''.join` performs on each element. -/
def pyAsStr (j : Json) : Except String String :=
  match j with
  | Json.str s => Except.ok s
  | _ => Except.error "TypeError: sequence item is not a string"

mutual

/-- Model of Python's `repr`, as applied to nested values by
`str()`/f-string interpolation of containers. -/
def pyRepr : Json → String
  | Json.null => "None"
  | Json.bool true => "True"
  | Json.bool false => "False"
  | Json.str s => "\x27" ++ s ++ "\x27"
  | Json.arr elems => "[" ++ pyReprList elems ++ "]"
  | Json.obj fields => "\x7b" ++ pyReprFields fields ++ "\x7d"

/-- Comma-separated `repr`s of list elements. -/
def pyReprList : List Json → String
  | [] => ""
  | [j] => pyRepr j
  | j :: rest => pyRepr j ++ ", " ++ pyReprList rest

/-- Comma-separated `repr`s of dict entries. -/
def pyReprFields : List (String × Json) → String
  | [] => ""
  | [kv] => "\x27" ++ kv.1 ++ "\x27: " ++ pyRepr kv.2
  | kv :: rest => "\x27" ++ kv.1 ++ "\x27: " ++ pyRepr kv.2 ++ ", " ++ pyReprFields rest

end

/-- Model of `str(v)` as used by f-string interpolation. -/
def pyStr (j : Json) : String :=
  match j with
  | Json.str s => s
  | _ => pyRepr j

/-- The loop body of `notion_rich_text_to_html`: renders one rich-text
span.  Formatting wraps are applied in source order (bold, italic,
code, strikethrough), then a truthy `href` wraps the whole content in
an anchor tag. -/
def renderTextObj (text_obj : Json) : String :=
  let content0 :=
    match text_obj.get "plain_text" with
    | some v => pyStr v
    | none => ""
  let annotations := (text_obj.get "annotations").getD (Json.obj [])
  let c1 := if truthyOpt (annotations.get "bold") then "<strong>" ++ content0 ++ "</strong>" else content0
  let c2 := if truthyOpt (annotations.get "italic") then "<em>" ++ c1 ++ "</em>" else c1
  let c3 := if truthyOpt (annotations.get "code") then "<code>" ++ c2 ++ "</code>" else c2
  let c4 := if truthyOpt (annotations.get "strikethrough") then "<s>" ++ c3 ++ "</s>" else c3
  match text_obj.get "href" with
  | some h => if h.truthy then "<a href=\"" ++ pyStr h ++ "\">" ++ c4 ++ "</a>" else c4
  | none => c4

/-- `notion_rich_text_to_html`: falsy input yields the empty string,
otherwise the spans are rendered and concatenated in order with no
separators.  (A truthy non-list argument would raise in Python when the
loop accesses an element; it renders to the empty string here.) -/
def notion_rich_text_to_html (rich_text_array : Json) : String :=
  if rich_text_array.truthy = false then ""
  else
    match rich_text_array with
    | Json.arr elems => String.join (elems.map renderTextObj)
    | _ => ""

/-- The rich text of a block payload: `block_content.get('rich_text', [])`
fed to the rich-text renderer. -/
def richTextOf (block_content : Json) : String :=
  notion_rich_text_to_html ((block_content.get "rich_text").getD (Json.arr []))

/-- The default callout emoji literal exactly as it appears in the
source file (a mojibake rendering of the light-bulb emoji). -/
def defaultEmoji : String := "üí°"

/-- `notion_block_to_html`: dispatch from the block's `type` tag along
the source's if/elif chain to a fixed HTML template; unknown or
missing types render to the empty string. -/
def notion_block_to_html (block : Json) : String :=
  let block_type : Option String :=
    match block.get "type" with
    | some (Json.str s) => some s
    | _ => none
  let block_content :=
    match block_type with
    | some s => (block.get s).getD (Json.obj [])
    | none => Json.obj []
  if block_type = some "paragraph" then
    let text := richTextOf block_content
    if text ≠ "" then "<p>" ++ text ++ "</p>" else ""
  else if block_type = some "heading_1" then "<h1>" ++ richTextOf block_content ++ "</h1>"
  else if block_type = some "heading_2" then "<h2>" ++ richTextOf block_content ++ "</h2>"
  else if block_type = some "heading_3" then "<h3>" ++ richTextOf block_content ++ "</h3>"
  else if block_type = some "code" then
    let code_text := richTextOf block_content
    let language :=
      match block_content.get "language" with
      | some v => pyStr v
      | none => "plaintext"
    "<pre><code class=\x27language-" ++ language ++ "\x27>" ++ code_text ++ "</code></pre>"
  else if block_type = some "bulleted_list_item" then "<li>" ++ richTextOf block_content ++ "</li>"
  else if block_type = some "numbered_list_item" then "<li>" ++ richTextOf block_content ++ "</li>"
  else if block_type = some "quote" then "<blockquote>" ++ richTextOf block_content ++ "</blockquote>"
  else if block_type = some "divider" then "<hr>"
  else if block_type = some "callout" then
    let text := richTextOf block_content
    let icon := (block_content.get "icon").getD (Json.obj [])
    let emoji :=
      match icon.get "type" with
      | some (Json.str s) =>
        if s = "emoji" then
          match icon.get "emoji" with
          | some v => pyStr v
          | none => defaultEmoji
        else defaultEmoji
      | _ => defaultEmoji
    "<div class=\x27callout\x27>" ++ emoji ++ " " ++ text ++ "</div>"
  else if block_type = some "toggle" then
    "<details><summary>" ++ richTextOf block_content ++ "</summary></details>"
  else if block_type = some "image" then
    let image_url :=
      pyOr (((block_content.get "file").getD (Json.obj [])).get "url")
        (((block_content.get "external").getD (Json.obj [])).get "url")
    let caption := notion_rich_text_to_html ((block_content.get "caption").getD (Json.arr []))
    match image_url with
    | some u =>
      if u.truthy then
        if caption ≠ "" then
          "<figure><img src=\"" ++ pyStr u ++ "\" alt=\"" ++ caption ++ "\"><figcaption>" ++ caption ++ "</figcaption></figure>"
        else
          "<img src=\"" ++ pyStr u ++ "\" alt=\"Image\">"
      else ""
    | none => ""
  else ""

/-! ## The block-tree walker `blocks_to_html`

The walker consumes a list of sibling blocks.  In the program a block's
children live behind the API (`fetch_blocks(notion, block['id'])`); the
pagination of that collaborator is modelled separately by
`fetch_blocks` below, and for the walker each block node carries the
already-concatenated list of its children. -/

/-- A block together with the child blocks the paginated collaborator
would return for it (consulted only when the block's `has_children`
flag is truthy, exactly as in the source). -/
inductive BTree where
  | node (data : Json) (children : List BTree)

/-- The JSON payload of a block node. -/
def BTree.data : BTree → Json
  | BTree.node d _ => d

/-- The child list of a block node. -/
def BTree.children : BTree → List BTree
  | BTree.node _ c => c

/-- The mutable state of the loop in `blocks_to_html`: the accumulated
output fragments, the buffer of rendered list items, and the currently
open list kind. -/
structure WalkSt where
  html_parts : List String
  list_buffer : List String
  current_list_type : Option String

/-- The flush expression
`f"<{current_list_type}>{''.join(list_buffer)}</{current_list_type}>"`
(a `None` list type would be interpolated as the text `None`). -/
def wrapList (current_list_type : Option String) (list_buffer : List String) : String :=
  let tag := match current_list_type with
    | some s => s
    | none => "None"
  "<" ++ tag ++ ">" ++ String.join list_buffer ++ "</" ++ tag ++ ">"

mutual

/-- `blocks_to_html`: run the walker loop over the siblings from an
empty state, close any remaining open list, and join the fragments. -/
def blocks_to_html (blocks : List BTree) : String :=
  let st := walkBlocks blocks ⟨[], [], none⟩
  String.join
    (st.html_parts ++
      (if st.list_buffer ≠ [] then [wrapList st.current_list_type st.list_buffer] else []))
termination_by (sizeOf blocks, 1)

/-- The `for block in blocks` loop of `blocks_to_html`. -/
def walkBlocks (blocks : List BTree) (st : WalkSt) : WalkSt :=
  match blocks with
  | [] => st
  | b :: rest => walkBlocks rest (processBlock b st)
termination_by (sizeOf blocks, 0)

/-- One iteration of the loop in `blocks_to_html`: group list items
into the buffer (flushing on a kind change), render non-list blocks
directly (flushing any open list first), then, when `has_children` is
truthy, append the recursively rendered children.  (The source indexes
`block['id']` to fetch the children; here they are attached to the
node.) -/
def processBlock (b : BTree) (st : WalkSt) : WalkSt :=
  match b with
  | BTree.node data children =>
    let block_type : Option String :=
      match data.get "type" with
      | some (Json.str s) => some s
      | _ => none
    let st1 :=
      if block_type = some "bulleted_list_item" ∨ block_type = some "numbered_list_item" then
        let list_type := if block_type = some "bulleted_list_item" then "ul" else "ol"
        let st' :=
          if st.current_list_type ≠ some list_type then
            let stF :=
              if st.list_buffer ≠ [] then
                { st with html_parts := st.html_parts ++ [wrapList st.current_list_type st.list_buffer],
                          list_buffer := [] }
              else st
            { stF with current_list_type := some list_type }
          else st
        { st' with list_buffer := st'.list_buffer ++ [notion_block_to_html data] }
      else
        let st' :=
          if st.list_buffer ≠ [] then
            { st with html_parts := st.html_parts ++ [wrapList st.current_list_type st.list_buffer],
                      list_buffer := [],
                      current_list_type := none }
          else st
        let html := notion_block_to_html data
        if html ≠ "" then { st' with html_parts := st'.html_parts ++ [html] } else st'
    if truthyOpt (data.get "has_children") then
      let child_html := blocks_to_html children
      if child_html ≠ "" then { st1 with html_parts := st1.html_parts ++ [child_html] } else st1
    else st1
termination_by (sizeOf b, 0)

end

/-- The final fragment list `blocks_to_html` joins: the loop's
`html_parts` followed by the trailing flush of a non-empty buffer. -/
def htmlParts (blocks : List BTree) : List String :=
  let st := walkBlocks blocks ⟨[], [], none⟩
  st.html_parts ++
    (if st.list_buffer ≠ [] then [wrapList st.current_list_type st.list_buffer] else [])

/-! ## The paginated fetch collaborator `fetch_blocks` -/

/-- One response of the `blocks.children.list` collaborator: a page of
results, the has-more flag, and the continuation cursor. -/
structure ListChildrenResp where
  results : List Json
  has_more : Bool
  next_cursor : Json

/-- The `while has_more` loop of `fetch_blocks`, driven by the sequence
of responses the collaborator returns to the successive calls.  The
accumulated blocks are extended with each page's results and the
cursor is threaded to the next call. -/
def fetchLoop : List ListChildrenResp → List Json → Json → List Json
  | [], blocks, _start_cursor => blocks
  | r :: rest, blocks, _start_cursor =>
    let blocks' := blocks ++ r.results
    if r.has_more then fetchLoop rest blocks' r.next_cursor else blocks'

/-- `fetch_blocks`: run the pagination loop from an empty accumulator
and a `None` start cursor. -/
def fetch_blocks (responses : List ListChildrenResp) : List Json :=
  fetchLoop responses [] Json.null

/-! ## Dates

Models of the Python standard-library date functions the program uses
(`datetime.fromisoformat`, `strftime('%b %d, %Y')`,
`strptime('%b %d, %Y')`), restricted to the value shapes these call
sites can receive. -/

/-- A calendar date (the time-of-day is validated during parsing but
never used: `strftime('%b %d, %Y')` only reads the date). -/
structure PyDate where
  year : Nat
  month : Nat
  day : Nat
deriving DecidableEq

/-- Gregorian leap-year rule. -/
def isLeapYear (y : Nat) : Bool :=
  (y % 4 == 0 && y % 100 != 0) || (y % 400 == 0)

/-- Number of days of a month. -/
def daysInMonth (y m : Nat) : Nat :=
  if m = 2 then (if isLeapYear y then 29 else 28)
  else if m = 4 ∨ m = 6 ∨ m = 9 ∨ m = 11 then 30
  else 31

/-- Validity of a date as enforced by `datetime`. -/
def validDate (d : PyDate) : Bool :=
  decide (1 ≤ d.year ∧ d.year ≤ 9999 ∧ 1 ≤ d.month ∧ d.month ≤ 12 ∧
    1 ≤ d.day ∧ d.day ≤ daysInMonth d.year d.month)

/-- Numeric value of a decimal digit character. -/
def digitVal (c : Char) : Option Nat :=
  if c.isDigit then some (c.toNat - 48) else none

/-- Two decimal digits at the head of the input. -/
def digits2 : List Char → Option (Nat × List Char)
  | c1 :: c2 :: rest =>
    match digitVal c1, digitVal c2 with
    | some a, some b => some (10 * a + b, rest)
    | _, _ => none
  | _ => none

/-- A UTC-offset suffix `±HH:MM` or `±HH:MM:SS`, or the end of the
input. -/
def parseOffset : List Char → Bool
  | [] => true
  | sign :: rest =>
    if sign = '+' ∨ sign = '-' then
      match digits2 rest with
      | some (oh, r1) =>
        (match r1 with
         | ':' :: r2 =>
           (match digits2 r2 with
            | some (om, r3) =>
              (match r3 with
               | [] => oh ≤ 23 && om ≤ 59
               | ':' :: r4 =>
                 (match digits2 r4 with
                  | some (os, r5) => r5.isEmpty && oh ≤ 23 && om ≤ 59 && os ≤ 59
                  | none => false)
               | _ => false)
            | none => false)
         | _ => false)
      | none => false
    else false

/-- A time-of-day `HH[:MM[:SS[.digits]]]` followed by an optional UTC
offset. -/
def parseTime (l : List Char) : Bool :=
  match digits2 l with
  | some (hh, r1) =>
    hh ≤ 23 &&
      (match r1 with
       | ':' :: r2 =>
         (match digits2 r2 with
          | some (mm, r3) =>
            mm ≤ 59 &&
              (match r3 with
               | ':' :: r4 =>
                 (match digits2 r4 with
                  | some (ss, r5) =>
                    ss ≤ 59 &&
                      (match r5 with
                       | '.' :: r6 =>
                         !(r6.takeWhile (fun c => c.isDigit)).isEmpty &&
                           parseOffset (r6.dropWhile (fun c => c.isDigit))
                       | _ => parseOffset r5)
                  | none => false)
               | _ => parseOffset r3)
          | none => false)
       | _ => parseOffset r1)
  | none => false

/-- Model of `datetime.fromisoformat` on the shapes this program can
pass it: `YYYY-MM-DD`, optionally followed by a separator character
and a time-of-day with an optional explicit UTC offset (a trailing `Z`
has already been replaced by `+00:00` at the call sites).  Returns the
date component; malformed input raises `ValueError`. -/
def pyFromIsoformat (s : String) : Except String PyDate :=
  match s.data with
  | y1 :: y2 :: y3 :: y4 :: '-' :: m1 :: m2 :: '-' :: d1 :: d2 :: rest =>
    (match digitVal y1, digitVal y2, digitVal y3, digitVal y4,
           digitVal m1, digitVal m2, digitVal d1, digitVal d2 with
     | some a, some b, some c, some d, some e, some f, some g, some h =>
       let dt : PyDate := ⟨1000 * a + 100 * b + 10 * c + d, 10 * e + f, 10 * g + h⟩
       let timeOk :=
         match rest with
         | [] => true
         | _sep :: timeRest => parseTime timeRest
       if validDate dt && timeOk then Except.ok dt
       else Except.error ("ValueError: Invalid isoformat string: " ++ s)
     | _, _, _, _, _, _, _, _ =>
       Except.error ("ValueError: Invalid isoformat string: " ++ s))
  | _ => Except.error ("ValueError: Invalid isoformat string: " ++ s)

/-- Abbreviated month names as produced by `%b` in the C locale. -/
def monthAbbrev (m : Nat) : String :=
  match m with
  | 1 => "Jan" | 2 => "Feb" | 3 => "Mar" | 4 => "Apr" | 5 => "May" | 6 => "Jun"
  | 7 => "Jul" | 8 => "Aug" | 9 => "Sep" | 10 => "Oct" | 11 => "Nov" | 12 => "Dec"
  | _ => "???"

/-- Zero-padded two-digit rendering of `%d`. -/
def pad2 (n : Nat) : String :=
  if n < 10 then "0" ++ toString n else toString n

/-- Model of `strftime('%b %d, %Y')`: abbreviated month, zero-padded
day, year. -/
def strftimeBDY (d : PyDate) : String :=
  monthAbbrev d.month ++ " " ++ pad2 d.day ++ ", " ++ toString d.year

/-- Month number of an abbreviated month name. -/
def monthOfAbbrev (s : String) : Option Nat :=
  match s with
  | "Jan" => some 1 | "Feb" => some 2 | "Mar" => some 3 | "Apr" => some 4
  | "May" => some 5 | "Jun" => some 6 | "Jul" => some 7 | "Aug" => some 8
  | "Sep" => some 9 | "Oct" => some 10 | "Nov" => some 11 | "Dec" => some 12
  | _ => none

/-- Numeric value of a digit string. -/
def natOfDigits (l : List Char) : Nat :=
  l.foldl (fun acc c => 10 * acc + (c.toNat - 48)) 0

/-- Model of `datetime.strptime(s, '%b %d, %Y')` on the strings this
program feeds it (which all come from `strftime('%b %d, %Y')`):
abbreviated month name, one or two day digits, a comma and space, and
the year digits; the assembled date must be valid. -/
def pyStrptimeBDY (s : String) : Except String PyDate :=
  match s.data with
  | c1 :: c2 :: c3 :: ' ' :: rest =>
    (match monthOfAbbrev (String.mk [c1, c2, c3]) with
     | some m =>
       let dayDigits := rest.takeWhile (fun c => c.isDigit)
       let rest2 := rest.dropWhile (fun c => c.isDigit)
       if dayDigits.length = 1 ∨ dayDigits.length = 2 then
         match rest2 with
         | ',' :: ' ' :: rest3 =>
           let yearDigits := rest3.takeWhile (fun c => c.isDigit)
           let rest4 := rest3.dropWhile (fun c => c.isDigit)
           if 1 ≤ yearDigits.length ∧ yearDigits.length ≤ 4 ∧ rest4 = [] then
             let dt : PyDate := ⟨natOfDigits yearDigits, m, natOfDigits dayDigits⟩
             if validDate dt then Except.ok dt
             else Except.error ("ValueError: day is out of range for month: " ++ s)
           else Except.error ("ValueError: time data does not match format: " ++ s)
         | _ => Except.error ("ValueError: time data does not match format: " ++ s)
       else Except.error ("ValueError: time data does not match format: " ++ s)
     | none => Except.error ("ValueError: time data does not match format: " ++ s))
  | _ => Except.error ("ValueError: time data does not match format: " ++ s)

/-- Chronological sort key of a date: strictly monotone in the
lexicographic year/month/day order on valid dates. -/
def dateKey (d : PyDate) : Nat :=
  d.year * 512 + d.month * 32 + d.day

/-- Model of `date_str.replace('Z', '+00:00')` (Python's `str.replace`
replaces every occurrence; the pattern is a single character). -/
def pyReplaceZ (s : String) : String :=
  String.mk ((s.data.map (fun c => if c = 'Z' then "+00:00".data else [c])).flatten)

/-! ## Excerpt synthesis: models of the two regular expressions

`re.findall(r'<p>(.*?)</p>', content_html)[0]` and
`re.sub('<[^<]+?>', '', text)`.  In both patterns `.` and `[^<]` do not
match a newline / `<` respectively, and `?` makes the repetition lazy,
so a match body is the shortest eligible character run. -/

/-- Lazy body of a `<p>(.*?)</p>` match attempt: starting right after
an opening tag, the shortest run of non-newline characters followed by
the literal close tag; `none` when no close tag is reachable. -/
def matchParaBody : List Char → Option (List Char)
  | [] => none
  | c :: rest =>
    if c = '<' ∧ rest.take 3 = ['/', 'p', '>'] then some []
    else if c = '\n' then none
    else (matchParaBody rest).map (fun b => c :: b)

/-- The body of the first `<p>(.*?)</p>` match, scanning left to right
(the first element of `re.findall(r'<p>(.*?)</p>', ...)`). -/
def findFirstPara : List Char → Option (List Char)
  | [] => none
  | c :: rest =>
    if c = '<' ∧ rest.take 2 = ['p', '>'] then
      match matchParaBody (rest.drop 2) with
      | some b => some b
      | none => findFirstPara rest
    else findFirstPara rest

/-- One-pass model of `re.sub('<[^<]+?>', '', text)`: the accumulator
holds the reversed body characters scanned since an open `<` that may
still begin a match.  A `>` after at least one body character closes
and strips the match; a second `<` abandons the pending candidate
(its body cannot contain `<`) and starts a new one; pending text that
never closes is emitted verbatim. -/
def reSubTags : List Char → Option (List Char) → List Char
  | [], none => []
  | [], some body => '<' :: body.reverse
  | c :: rest, none =>
    if c = '<' then reSubTags rest (some [])
    else c :: reSubTags rest none
  | c :: rest, some body =>
    if c = '>' then
      (if body.isEmpty then reSubTags rest (some ('>' :: body))
       else reSubTags rest none)
    else if c = '<' then '<' :: body.reverse ++ reSubTags rest (some [])
    else reSubTags rest (some (c :: body))

/-- `re.sub('<[^<]+?>', '', text)`: strip every non-overlapping tag
match. -/
def stripTags (l : List Char) : List Char :=
  reSubTags l none

/-! ## Property extractors

Each extractor reads the page's property bag.  They are embedded in
`Except String`: bracket subscriptions (`prop['type']`, `['start']`,
`['name']`), `str.replace` on a non-string, `datetime.fromisoformat`
on a malformed string, and iteration over non-lists can raise, and the
orchestrator's per-page `try/except` is what catches these. -/

/-- The comprehension-and-join
`''.join([text.get('plain_text', '') for text in rich_text])`. -/
def joinPlainTexts (rich_text : Json) : Except String String := do
  let items ← pyIterFor rich_text
  let vals ← items.mapM (fun t =>
    match t with
    | Json.obj _ => Except.ok ((t.get "plain_text").getD (Json.str ""))
    | _ => Except.error "AttributeError: get")
  let strs ← vals.mapM pyAsStr
  pure (String.join strs)

/-- `extract_title`: the `Title`/`Name` property's concatenated plain
text when it is `title`-typed; `"Untitled"` otherwise. -/
def extract_title (properties : Json) : Except String String := do
  let a ← pyGet properties "Title"
  let b ← pyGet properties "Name"
  match pyOr a b with
  | some v =>
    if v.truthy then do
      let t ← pyIndexS v "type"
      match t with
      | Json.str "title" => do
        let rich_text ← pyGetD v "title" (Json.arr [])
        joinPlainTexts rich_text
      | _ => pure "Untitled"
    else pure "Untitled"
  | none => pure "Untitled"

/-- The method lookup `x.replace` / `x.lower`: only strings have these
attributes. -/
def pyAsStrAttr (j : Json) : Except String String :=
  match j with
  | Json.str s => Except.ok s
  | _ => Except.error "AttributeError: str method on non-string"

/-- `extract_date`: format the `date`-typed range start or the
`created_time`-typed value, normalizing a `Z` suffix first; fall back
to the current date (`now`, passed explicitly here since the source
reads the clock). -/
def extract_date (properties : Json) (now : PyDate) : Except String String := do
  let a ← pyGet properties "Date"
  let b ← pyGet properties "Published"
  match pyOr a b with
  | some v =>
    if v.truthy then do
      let t ← pyIndexS v "type"
      match t with
      | Json.str "date" =>
        (match v.get "date" with
         | some dv =>
           if dv.truthy then do
             let dd ← pyIndexS dv "start"
             let date_str ← pyAsStrAttr dd
             let date_obj ← pyFromIsoformat (pyReplaceZ date_str)
             pure (strftimeBDY date_obj)
           else pure (strftimeBDY now)
         | none => pure (strftimeBDY now))
      | Json.str "created_time" => do
        let ct ← pyIndexS v "created_time"
        let date_str ← pyAsStrAttr ct
        let date_obj ← pyFromIsoformat (pyReplaceZ date_str)
        pure (strftimeBDY date_obj)
      | _ => pure (strftimeBDY now)
    else pure (strftimeBDY now)
  | none => pure (strftimeBDY now)

/-- `extract_category`: a `select`-typed value's name, or the first
`multi_select` value's name; `"General"` otherwise.  (The value is
returned as found, hence `Json`-valued.) -/
def extract_category (properties : Json) : Except String Json := do
  let a ← pyGet properties "Category"
  let b ← pyGet properties "Type"
  match pyOr a b with
  | some v =>
    if v.truthy then do
      let t ← pyIndexS v "type"
      match t with
      | Json.str "select" =>
        (match v.get "select" with
         | some sv =>
           if sv.truthy then pyIndexS sv "name"
           else pure (Json.str "General")
         | none => pure (Json.str "General"))
      | Json.str "multi_select" =>
        (match v.get "multi_select" with
         | some mv =>
           -- the source re-tests `category_prop['multi_select']` in a
           -- conditional expression; both tests see the same value
           if mv.truthy then do
             let first ← pyIndexNat mv 0
             pyIndexS first "name"
           else pure (Json.str "General")
         | none => pure (Json.str "General"))
      | _ => pure (Json.str "General")
    else pure (Json.str "General")
  | none => pure (Json.str "General")

/-- `extract_tags`: all `multi_select` value names, in order; the empty
list otherwise. -/
def extract_tags (properties : Json) : Except String (List Json) := do
  let a ← pyGet properties "Tags"
  let b ← pyGet properties "Labels"
  match pyOr a b with
  | some v =>
    if v.truthy then do
      let t ← pyIndexS v "type"
      match t with
      | Json.str "multi_select" => do
        let ms ← pyGetD v "multi_select" (Json.arr [])
        let items ← pyIterFor ms
        items.mapM (fun tag => pyIndexS tag "name")
      | _ => pure []
    else pure []
  | none => pure []

/-- `extract_excerpt`: prefer the non-empty concatenated plain text of
a `rich_text`-typed `Excerpt`/`Summary` property; otherwise strip the
tags of the first `<p>(.*?)</p>` match of the content HTML, truncating
to 200 characters plus an ellipsis; otherwise the fixed literal. -/
def extract_excerpt (properties : Json) (content_html : String) : Except String String := do
  let a ← pyGet properties "Excerpt"
  let b ← pyGet properties "Summary"
  let fromProp ←
    (match pyOr a b with
     | some v =>
       if v.truthy then do
         let t ← pyIndexS v "type"
         match t with
         | Json.str "rich_text" => do
           let rich_text ← pyGetD v "rich_text" (Json.arr [])
           joinPlainTexts rich_text
         | _ => pure ""
       else pure ""
     | none => pure "")
  if fromProp ≠ "" then pure fromProp
  else if content_html ≠ "" then
    match findFirstPara content_html.data with
    | some para =>
      let text := stripTags para
      if text.length > 200 then pure (String.mk (text.take 200) ++ "...")
      else pure (String.mk text)
    | none => pure "No excerpt available."
  else pure "No excerpt available."

/-- Model of Python's `str.lower` on the ASCII range (the values this
call site compares against are ASCII). -/
def pyLower (s : String) : String :=
  String.mk (s.data.map (fun c => if 'A' ≤ c ∧ c ≤ 'Z' then Char.ofNat (c.toNat + 32) else c))

/-- `extract_published_status`: a `checkbox`-typed property's stored
value (default `False`), a `select`-typed property's case-insensitive
membership in published/live/public, and `True` when absent. -/
def extract_published_status (properties : Json) : Except String Json := do
  let a ← pyGet properties "Status"
  let b ← pyGet properties "Published"
  match pyOr a b with
  | some v =>
    if v.truthy then do
      let t ← pyIndexS v "type"
      match t with
      | Json.str "checkbox" => pyGetD v "checkbox" (Json.bool false)
      | Json.str "select" =>
        (match v.get "select" with
         | some sv =>
           if sv.truthy then do
             let nm ← pyIndexS sv "name"
             let s ← pyAsStrAttr nm
             pure (Json.bool (decide (pyLower s = "published" ∨ pyLower s = "live" ∨ pyLower s = "public")))
           else pure (Json.bool true)
         | none => pure (Json.bool true))
      | _ => pure (Json.bool true)
    else pure (Json.bool true)
  | none => pure (Json.bool true)

/-! ## The sync orchestrator

`sync_notion_to_blogs` (lines 301-350): process each page of the
database query — skipping unpublished pages and pages whose processing
raises — then sort by descending parsed date and reassign sequential
ids.  The I/O glue (client construction, console messages, file
writing) is out of scope; the processed pages arrive as the page
object paired with its fetched block tree, and the clock value `now`
is a parameter. -/

/-- One blog entry dict as assembled by the processing loop. -/
structure BlogEntry where
  id : Nat
  title : String
  excerpt : String
  content : String
  date : String
  category : Json
  tags : List Json

/-- The body of the per-page `try`: check the published flag (a falsy
result skips the page, `none`), extract the metadata, render the
content, and build the entry with the enumeration index as its
provisional id. -/
def processPage (idx : Nat) (page : Json) (page_blocks : List BTree) (now : PyDate) :
    Except String (Option BlogEntry) := do
  let properties ← pyGetD page "properties" (Json.obj [])
  let pub ← extract_published_status properties
  if pub.truthy = false then pure none
  else do
    let title ← extract_title properties
    let date ← extract_date properties now
    let category ← extract_category properties
    let tags ← extract_tags properties
    let _page_id ← pyIndexS page "id"
    let content_html := blocks_to_html page_blocks
    let excerpt ← extract_excerpt properties content_html
    pure (some { id := idx, title := title, excerpt := excerpt, content := content_html,
                 date := date, category := category, tags := tags })

/-- The `for idx, page in enumerate(pages, 1)` loop: a raised exception
or a falsy published flag skips the page; the index advances either
way. -/
def processPages (pages : List (Json × List BTree)) (idx : Nat) (now : PyDate) : List BlogEntry :=
  match pages with
  | [] => []
  | (pg, bs) :: rest =>
    match processPage idx pg bs now with
    | Except.error _ => processPages rest (idx + 1) now
    | Except.ok none => processPages rest (idx + 1) now
    | Except.ok (some e) => e :: processPages rest (idx + 1) now

/-- Key computation of
`blogs.sort(key=lambda x: datetime.strptime(x['date'], '%b %d, %Y'), reverse=True)`:
CPython precomputes the key of every element before sorting, so a
parse failure raises before any reordering. -/
def buildKeyed (blogs : List BlogEntry) : Except String (List (Nat × BlogEntry)) :=
  blogs.mapM (fun b => (pyStrptimeBDY b.date).map (fun d => (dateKey d, b)))

/-- Stable insertion step: place `x` before the first element whose key
is at most `x`'s (descending order; an equal-keyed element inserted
later in the fold was earlier in the input, preserving input order). -/
def insertDesc (x : Nat × BlogEntry) : List (Nat × BlogEntry) → List (Nat × BlogEntry)
  | [] => [x]
  | y :: rest => if y.1 ≤ x.1 then x :: y :: rest else y :: insertDesc x rest

/-- Stable descending sort by key.  `list.sort(key=..., reverse=True)`
is specified as a stable sort; a stable sort is extensionally
determined by the key order, so this insertion sort is the sort's
behaviour. -/
def sortDescByKey : List (Nat × BlogEntry) → List (Nat × BlogEntry)
  | [] => []
  | x :: rest => insertDesc x (sortDescByKey rest)

/-- The `for idx, blog in enumerate(blogs, 1): blog['id'] = idx`
re-assignment loop. -/
def reassignIds (i : Nat) : List BlogEntry → List BlogEntry
  | [] => []
  | b :: rest => { b with id := i } :: reassignIds (i + 1) rest

/-- Lines 345-350: sort by descending parsed date (stable) and reassign
sequential ids starting at 1. -/
def sortAndReid (blogs : List BlogEntry) : Except String (List BlogEntry) := do
  let keyed ← buildKeyed blogs
  pure (reassignIds 1 ((sortDescByKey keyed).map (fun p => p.2)))

/-- The whole per-run pipeline after a successful database query. -/
def sync_notion_to_blogs (pages : List (Json × List BTree)) (now : PyDate) :
    Except String (List BlogEntry) :=
  sortAndReid (processPages pages 1 now)

/-! ## Specification vocabulary

Definitions used only to state and prove properties of the embedded
program. -/

/-- `headSeg p l`: the list `l` begins with the segment `p`. -/
def headSeg (p l : List Char) : Prop := l.take p.length = p

/-- `hasSeg p l`: the segment `p` occurs contiguously inside `l`. -/
def hasSeg (p l : List Char) : Prop := ∃ a b, l = a ++ (p ++ b)

/-- The list kind of a block as the walker sees it: `ul` for a
bulleted list item, `ol` for a numbered one, nothing otherwise. -/
def listKindOf (b : BTree) : Option String :=
  match b.data.get "type" with
  | some (Json.str s) =>
    if s = "bulleted_list_item" then some "ul"
    else if s = "numbered_list_item" then some "ol"
    else none
  | _ => none

/-- The block's own rendered fragment. -/
def liOf (b : BTree) : String := notion_block_to_html b.data

/-- The recursively rendered children fragment the walker appends for
a block: the render of the attached children when `has_children` is
truthy, the empty string otherwise. -/
def childHtml (b : BTree) : String :=
  if truthyOpt (b.data.get "has_children") then blocks_to_html b.children else ""

/-- The fragments the child-recursion step appends to `html_parts`
(one fragment when it is non-empty, nothing otherwise). -/
def childParts (b : BTree) : List String :=
  if childHtml b ≠ "" then [childHtml b] else []

/-- The fragments the non-list render step appends to `html_parts`. -/
def hParts (b : BTree) : List String :=
  if liOf b ≠ "" then [liOf b] else []

/-- The fragments a flush of the current state appends: the wrapped
buffer when it is non-empty, nothing otherwise. -/
def flushOf (st : WalkSt) : List String :=
  if st.list_buffer ≠ [] then [wrapList st.current_list_type st.list_buffer] else []

/-- The child fragments contributed by a run of sibling blocks, in
order. -/
def runChildrenParts (run : List BTree) : List String :=
  (run.map childParts).flatten

/-- The single list container wrapping a run's rendered items. -/
def containerOf (t : String) (run : List BTree) : String :=
  "<" ++ t ++ ">" ++ String.join (run.map liOf) ++ "</" ++ t ++ ">"

/-- The sibling sequence following a kind-`t` run breaks the run:
either it is over or its first block is not a kind-`t` list item. -/
def breaksRun (t : String) : List BTree → Prop
  | [] => True
  | b :: _ => ¬(listKindOf b = some t)

/-- A fragment is `goodPart` when it is at least four characters long
and, if it begins like a list container, contains a list item tag. -/
def goodPart (p : String) : Prop :=
  4 ≤ p.data.length ∧
    ((headSeg "<ul>".data p.data ∨ headSeg "<ol>".data p.data) → hasSeg "<li>".data p.data)

/-- The buffer invariant of the walker: every fragment sitting in
`list_buffer` is a rendered list item, beginning with `<li>`. -/
def bufInv (st : WalkSt) : Prop :=
  ∀ s ∈ st.list_buffer, headSeg "<li>".data s.data

/-- A blog entry with its id field scrubbed (ids are rewritten by the
final re-assignment, so stability statements compare entries modulo
id). -/
def stripId (b : BlogEntry) : BlogEntry := { b with id := 0 }

/-- The chronological key of an entry's formatted date (junk on
unparsable dates, which the sort rejects anyway). -/
def dkey (b : BlogEntry) : Nat :=
  match pyStrptimeBDY b.date with
  | Except.ok d => dateKey d
  | Except.error _ => 0

/-- A one-span rich-text array with the given plain text. -/
def mkRT (t : String) : Json :=
  Json.arr [Json.obj [("plain_text", Json.str t)]]

/-- A childless paragraph block. -/
def mkPara (t : String) : BTree :=
  BTree.node (Json.obj [("type", Json.str "paragraph"),
    ("paragraph", Json.obj [("rich_text", mkRT t)])]) []

/-- A bulleted list item block with the given children. -/
def mkBullet (t : String) (cs : List BTree) : BTree :=
  BTree.node (Json.obj [("type", Json.str "bulleted_list_item"),
    ("bulleted_list_item", Json.obj [("rich_text", mkRT t)]),
    ("has_children", Json.bool (!cs.isEmpty)), ("id", Json.str "blk")]) cs

/-- A childless numbered list item block. -/
def mkNum (t : String) : BTree :=
  BTree.node (Json.obj [("type", Json.str "numbered_list_item"),
    ("numbered_list_item", Json.obj [("rich_text", mkRT t)])]) []

/-- A toggle block with the given children. -/
def mkToggle (t : String) (cs : List BTree) : BTree :=
  BTree.node (Json.obj [("type", Json.str "toggle"),
    ("toggle", Json.obj [("rich_text", mkRT t)]),
    ("has_children", Json.bool (!cs.isEmpty)), ("id", Json.str "blk")]) cs

/-- A rich-text span carrying all four annotations and a hyperlink. -/
def allAnnotSpan (t u : String) : Json :=
  Json.obj [("plain_text", Json.str t),
    ("annotations", Json.obj [("bold", Json.bool true), ("italic", Json.bool true),
      ("code", Json.bool true), ("strikethrough", Json.bool true)]),
    ("href", Json.str u)]

/-- A property bag whose `Status` is a `select`-typed value `Draft`. -/
def draftProps : Json :=
  Json.obj [("Status", Json.obj [("type", Json.str "select"),
    ("select", Json.obj [("name", Json.str "Draft")])])]

/-- A page object with the draft property bag. -/
def draftPage : Json :=
  Json.obj [("properties", draftProps), ("id", Json.str "draft-page")]

/-! ## Basic string and segment lemmas -/

theorem str_data_append (a b : String) : (a ++ b).data = a.data ++ b.data := by
  cases a; cases b; rfl

theorem str_mk_data (l : List Char) : (String.mk l).data = l := rfl

theorem str_ext {a b : String} (h : a.data = b.data) : a = b := by
  cases a; cases b; congr 1

theorem str_append_nil (s : String) : s ++ "" = s := by
  apply str_ext; simp [str_data_append]

theorem str_nil_append (s : String) : "" ++ s = s := by
  apply str_ext; simp [str_data_append]

theorem str_append_assoc (a b c : String) : a ++ b ++ c = a ++ (b ++ c) := by
  apply str_ext; simp [str_data_append]

theorem join_foldl_acc (l : List String) : ∀ s : String,
    List.foldl (fun a b => a ++ b) s l = s ++ String.join l := by
  induction l with
  | nil => intro s; simp [String.join, str_append_nil]
  | cons a l ih =>
    intro s
    have h1 : String.join (a :: l) = a ++ String.join l := by
      show List.foldl (fun a b => a ++ b) "" (a :: l) = _
      simp only [List.foldl]
      rw [ih ("" ++ a), str_nil_append]
    show List.foldl (fun a b => a ++ b) (s ++ a) l = _
    rw [ih (s ++ a), h1, str_append_assoc]

theorem join_cons (a : String) (l : List String) :
    String.join (a :: l) = a ++ String.join l := by
  show List.foldl (fun a b => a ++ b) "" (a :: l) = _
  simp only [List.foldl]
  rw [join_foldl_acc, str_nil_append]

theorem join_nil : String.join ([] : List String) = "" := rfl

theorem join_append (l₁ l₂ : List String) :
    String.join (l₁ ++ l₂) = String.join l₁ ++ String.join l₂ := by
  induction l₁ with
  | nil => simp [join_nil, str_nil_append]
  | cons a l ih => simp only [List.cons_append, join_cons, ih, str_append_assoc]

theorem join_data (l : List String) :
    (String.join l).data = (l.map String.data).flatten := by
  induction l with
  | nil => rfl
  | cons a l ih => simp [join_cons, str_data_append, ih]

theorem headSeg_exists {p l : List Char} : headSeg p l ↔ ∃ t, l = p ++ t := by
  constructor
  · intro h
    refine ⟨l.drop p.length, ?_⟩
    have h2 := List.take_append_drop p.length l
    rw [h] at h2
    exact h2.symm
  · rintro ⟨t, rfl⟩
    unfold headSeg
    simp [List.take_left]

theorem headSeg_appendR {p a : List Char} (b : List Char) (h : headSeg p a) :
    headSeg p (a ++ b) := by
  rcases headSeg_exists.mp h with ⟨t, rfl⟩
  exact headSeg_exists.mpr ⟨t ++ b, by simp⟩

theorem headSeg_split {p a b : List Char} (h : headSeg p (a ++ b))
    (hl : p.length ≤ a.length) : headSeg p a := by
  unfold headSeg at h ⊢
  rwa [List.take_append_of_le_length hl] at h

theorem headSeg_cons {c d : Char} {p l : List Char} :
    headSeg (c :: p) (d :: l) ↔ c = d ∧ headSeg p l := by
  unfold headSeg
  simp only [List.length_cons, List.take_succ_cons, List.cons.injEq]
  exact ⟨fun ⟨h1, h2⟩ => ⟨h1.symm, h2⟩, fun ⟨h1, h2⟩ => ⟨h1.symm, h2⟩⟩

theorem headSeg_length {p l : List Char} (h : headSeg p l) : p.length ≤ l.length := by
  rcases headSeg_exists.mp h with ⟨t, rfl⟩
  simp

theorem hasSeg_of_headSeg {p l : List Char} (h : headSeg p l) : hasSeg p l := by
  rcases headSeg_exists.mp h with ⟨t, rfl⟩
  exact ⟨[], t, rfl⟩

theorem hasSeg_appendL {p l : List Char} (a : List Char) (h : hasSeg p l) :
    hasSeg p (a ++ l) := by
  rcases h with ⟨x, y, rfl⟩
  exact ⟨a ++ x, y, by simp⟩

theorem hasSeg_appendR {p l : List Char} (b : List Char) (h : hasSeg p l) :
    hasSeg p (l ++ b) := by
  rcases h with ⟨x, y, rfl⟩
  exact ⟨x, y ++ b, by simp⟩

/-! ## Walker structure lemmas -/

theorem walkBlocks_nil (st : WalkSt) : walkBlocks [] st = st := by
  rw [walkBlocks]

theorem walkBlocks_cons (b : BTree) (rest : List BTree) (st : WalkSt) :
    walkBlocks (b :: rest) st = walkBlocks rest (processBlock b st) := by
  rw [walkBlocks]

theorem walkBlocks_append (xs ys : List BTree) (st : WalkSt) :
    walkBlocks (xs ++ ys) st = walkBlocks ys (walkBlocks xs st) := by
  induction xs generalizing st with
  | nil => rw [walkBlocks_nil]; rfl
  | cons b rest ih => rw [List.cons_append, walkBlocks_cons, walkBlocks_cons, ih]

theorem blocks_to_html_join (blocks : List BTree) :
    blocks_to_html blocks = String.join (htmlParts blocks) := by
  rw [blocks_to_html, htmlParts]

/-- One-step characterization of the loop body: a list item flushes on
a kind change and lands in the buffer (with the children's fragment
going straight to `html_parts`); any other block flushes, renders, and
appends its children's fragment. -/
theorem processBlock_eq (b : BTree) (st : WalkSt) :
    processBlock b st =
      match listKindOf b with
      | some t =>
        if st.current_list_type = some t then
          WalkSt.mk (st.html_parts ++ childParts b) (st.list_buffer ++ [liOf b]) (some t)
        else
          WalkSt.mk (st.html_parts ++ flushOf st ++ childParts b) [liOf b] (some t)
      | none =>
        WalkSt.mk (st.html_parts ++ flushOf st ++ hParts b ++ childParts b) []
          (if st.list_buffer.isEmpty then st.current_list_type else none) := by
  obtain ⟨data, children⟩ := b
  obtain ⟨P, B, C⟩ := st
  rw [processBlock]
  cases htype : data.get "type" with
  | none =>
    by_cases hB : B = [] <;>
      by_cases hhc : truthyOpt (data.get "has_children") = true <;>
      by_cases hch : blocks_to_html children = "" <;>
      simp_all [flushOf, childParts, childHtml, hParts, liOf, listKindOf, BTree.data,
        BTree.children, notion_block_to_html]
  | some j =>
    cases j with
    | str s =>
      by_cases hs1 : s = "bulleted_list_item"
      · subst hs1
        by_cases hC : C = some "ul" <;> by_cases hB : B = [] <;>
          by_cases hhc : truthyOpt (data.get "has_children") = true <;>
          by_cases hch : blocks_to_html children = "" <;>
          simp_all [flushOf, childParts, childHtml, hParts, liOf, listKindOf, BTree.data,
            BTree.children]
      · by_cases hs2 : s = "numbered_list_item"
        · subst hs2
          by_cases hC : C = some "ol" <;> by_cases hB : B = [] <;>
            by_cases hhc : truthyOpt (data.get "has_children") = true <;>
            by_cases hch : blocks_to_html children = "" <;>
            simp_all [flushOf, childParts, childHtml, hParts, liOf, listKindOf, BTree.data,
              BTree.children]
        · by_cases hB : B = [] <;>
            by_cases hhc : truthyOpt (data.get "has_children") = true <;>
            by_cases hch : blocks_to_html children = "" <;>
            by_cases hrend : notion_block_to_html data = "" <;>
            simp_all [flushOf, childParts, childHtml, hParts, liOf, listKindOf, BTree.data,
              BTree.children]
    | null =>
      by_cases hB : B = [] <;>
        by_cases hhc : truthyOpt (data.get "has_children") = true <;>
        by_cases hch : blocks_to_html children = "" <;>
        simp_all [flushOf, childParts, childHtml, hParts, liOf, listKindOf, BTree.data,
          BTree.children, notion_block_to_html]
    | bool bb =>
      by_cases hB : B = [] <;>
        by_cases hhc : truthyOpt (data.get "has_children") = true <;>
        by_cases hch : blocks_to_html children = "" <;>
        simp_all [flushOf, childParts, childHtml, hParts, liOf, listKindOf, BTree.data,
          BTree.children, notion_block_to_html]
    | arr e =>
      by_cases hB : B = [] <;>
        by_cases hhc : truthyOpt (data.get "has_children") = true <;>
        by_cases hch : blocks_to_html children = "" <;>
        simp_all [flushOf, childParts, childHtml, hParts, liOf, listKindOf, BTree.data,
          BTree.children, notion_block_to_html]
    | obj f =>
      by_cases hB : B = [] <;>
        by_cases hhc : truthyOpt (data.get "has_children") = true <;>
        by_cases hch : blocks_to_html children = "" <;>
        simp_all [flushOf, childParts, childHtml, hParts, liOf, listKindOf, BTree.data,
          BTree.children, notion_block_to_html]

theorem processBlock_frame (b : BTree) (P B : List String) (C : Option String) :
    processBlock b ⟨P, B, C⟩ =
      ⟨P ++ (processBlock b ⟨[], B, C⟩).html_parts,
       (processBlock b ⟨[], B, C⟩).list_buffer,
       (processBlock b ⟨[], B, C⟩).current_list_type⟩ := by
  rw [processBlock_eq, processBlock_eq]
  cases h : listKindOf b <;> simp [flushOf] <;> split_ifs <;> simp

theorem walkBlocks_frame : ∀ (blocks : List BTree) (P B : List String) (C : Option String),
    walkBlocks blocks ⟨P, B, C⟩ =
      ⟨P ++ (walkBlocks blocks ⟨[], B, C⟩).html_parts,
       (walkBlocks blocks ⟨[], B, C⟩).list_buffer,
       (walkBlocks blocks ⟨[], B, C⟩).current_list_type⟩ := by
  intro blocks
  induction blocks with
  | nil => intro P B C; simp [walkBlocks_nil]
  | cons b rest ih =>
    intro P B C
    rw [walkBlocks_cons, walkBlocks_cons, processBlock_frame b P B C]
    rcases hpb : processBlock b ⟨[], B, C⟩ with ⟨D, B', C'⟩
    rw [ih (P ++ D) B' C', ih D B' C']
    simp [List.append_assoc]

theorem htmlParts_flush (blocks : List BTree) :
    htmlParts blocks =
      (walkBlocks blocks ⟨[], [], none⟩).html_parts ++
        flushOf (walkBlocks blocks ⟨[], [], none⟩) := by
  rw [htmlParts, flushOf]

theorem walk_out_frame (blocks : List BTree) (P B : List String) (C : Option String) :
    String.join ((walkBlocks blocks ⟨P, B, C⟩).html_parts ++
        flushOf (walkBlocks blocks ⟨P, B, C⟩)) =
      String.join P ++
        String.join ((walkBlocks blocks ⟨[], B, C⟩).html_parts ++
          flushOf (walkBlocks blocks ⟨[], B, C⟩)) := by
  rw [walkBlocks_frame blocks P B C]
  rcases h : walkBlocks blocks ⟨[], B, C⟩ with ⟨D, B', C'⟩
  simp [flushOf, join_append, str_append_assoc]

theorem join_hParts (b : BTree) : String.join (hParts b) = liOf b := by
  rw [hParts]
  split_ifs with h
  · rw [join_cons, join_nil, str_append_nil]
  · rw [join_nil]
    exact (not_ne_iff.mp h).symm

theorem join_childParts (b : BTree) : String.join (childParts b) = childHtml b := by
  rw [childParts]
  split_ifs with h
  · rw [join_cons, join_nil, str_append_nil]
  · rw [join_nil]
    exact (not_ne_iff.mp h).symm

theorem wrapList_container (t : String) (run : List BTree) :
    wrapList (some t) (run.map liOf) = containerOf t run := by
  simp [wrapList, containerOf, str_append_assoc]

theorem processBlock_same_kind {b : BTree} {t : String} (h : listKindOf b = some t)
    (P B : List String) (C : Option String) (hC : C = some t) :
    processBlock b ⟨P, B, C⟩ = ⟨P ++ childParts b, B ++ [liOf b], some t⟩ := by
  subst hC
  rw [processBlock_eq, h]
  simp

theorem processBlock_kind_change {b : BTree} {t : String} (h : listKindOf b = some t)
    (P B : List String) (C : Option String) (hC : ¬C = some t) :
    processBlock b ⟨P, B, C⟩ = ⟨P ++ flushOf ⟨P, B, C⟩ ++ childParts b, [liOf b], some t⟩ := by
  rw [processBlock_eq, h]
  simp [hC]

theorem processBlock_nonlist {b : BTree} (h : listKindOf b = none)
    (P B : List String) (C : Option String) :
    processBlock b ⟨P, B, C⟩ =
      ⟨P ++ flushOf ⟨P, B, C⟩ ++ hParts b ++ childParts b, [],
        if B.isEmpty then C else none⟩ := by
  rw [processBlock_eq, h]

theorem walk_run (t : String) : ∀ (run : List BTree), (∀ b ∈ run, listKindOf b = some t) →
    ∀ P B, walkBlocks run ⟨P, B, some t⟩ =
      ⟨P ++ runChildrenParts run, B ++ run.map liOf, some t⟩ := by
  intro run
  induction run with
  | nil => intro _ P B; simp [walkBlocks_nil, runChildrenParts]
  | cons b bs ih =>
    intro hall P B
    rw [walkBlocks_cons, processBlock_same_kind (hall b (by simp)) P B _ rfl]
    rw [ih (fun x hx => hall x (by simp [hx])) (P ++ childParts b) (B ++ [liOf b])]
    simp [runChildrenParts, List.append_assoc]

theorem walk_run_fresh (t : String) (run : List BTree) (hne : run ≠ [])
    (hall : ∀ b ∈ run, listKindOf b = some t) (P : List String) (C : Option String) :
    walkBlocks run ⟨P, [], C⟩ = ⟨P ++ runChildrenParts run, run.map liOf, some t⟩ := by
  obtain ⟨b, bs, rfl⟩ := List.exists_cons_of_ne_nil hne
  have hb := hall b (by simp)
  have hstep : processBlock b ⟨P, [], C⟩ = ⟨P ++ childParts b, [liOf b], some t⟩ := by
    by_cases hC : C = some t
    · rw [processBlock_same_kind hb P [] C hC]
      simp
    · rw [processBlock_kind_change hb P [] C hC]
      simp [flushOf]
  rw [walkBlocks_cons, hstep,
    walk_run t bs (fun x hx => hall x (by simp [hx])) (P ++ childParts b) [liOf b]]
  simp [runChildrenParts, List.append_assoc]

theorem blocks_to_html_nil : blocks_to_html [] = "" := by
  rw [blocks_to_html_join, htmlParts_flush, walkBlocks_nil]
  rfl

/-- Stepping over a non-list block: its fragment, then its children's
fragment, then the rest rendered from a fresh state. -/
theorem nonlist_step (b : BTree) (rest : List BTree) (h : listKindOf b = none) :
    blocks_to_html (b :: rest) = liOf b ++ childHtml b ++ blocks_to_html rest := by
  rw [blocks_to_html_join, htmlParts_flush, walkBlocks_cons, processBlock_nonlist h]
  have hstate : WalkSt.mk (([] : List String) ++ flushOf ⟨[], [], none⟩ ++ hParts b ++ childParts b) []
      (if ([] : List String).isEmpty then none else none) =
      WalkSt.mk (hParts b ++ childParts b) [] none := by
    simp [flushOf]
  rw [hstate, walk_out_frame rest (hParts b ++ childParts b) [] none,
    join_append, join_hParts, join_childParts, blocks_to_html_join rest, htmlParts_flush rest,
    str_append_assoc]

/-- Stepping over a maximal same-kind run of list items: the run's
child fragments, then exactly one container wrapping all its items,
then the rest rendered from a fresh state. -/
theorem run_step (t : String) (run rest : List BTree) (hne : run ≠ [])
    (hall : ∀ b ∈ run, listKindOf b = some t) (hbr : breaksRun t rest) :
    blocks_to_html (run ++ rest) =
      String.join (runChildrenParts run) ++ containerOf t run ++ blocks_to_html rest := by
  have hbuf : run.map liOf ≠ [] := by
    cases run with
    | nil => exact absurd rfl hne
    | cons x xs => simp
  rw [blocks_to_html_join, htmlParts_flush, walkBlocks_append,
    walk_run_fresh t run hne hall [] none]
  have hP : (([] : List String) ++ runChildrenParts run) = runChildrenParts run := by simp
  rw [hP]
  cases rest with
  | nil =>
    rw [walkBlocks_nil, blocks_to_html_nil]
    have hfl : flushOf ⟨runChildrenParts run, run.map liOf, some t⟩ =
        [wrapList (some t) (run.map liOf)] := by
      simp [flushOf, hbuf]
    rw [hfl, join_append, join_cons, join_nil, wrapList_container, str_append_nil,
      str_append_nil]
  | cons r rs =>
    have hbr' : ¬listKindOf r = some t := hbr
    rw [walkBlocks_cons]
    cases hk : listKindOf r with
    | none =>
      rw [processBlock_nonlist hk]
      have hstate : WalkSt.mk (runChildrenParts run ++
            flushOf ⟨runChildrenParts run, run.map liOf, some t⟩ ++ hParts r ++ childParts r) []
            (if (run.map liOf).isEmpty then some t else none) =
          WalkSt.mk ((runChildrenParts run ++ [wrapList (some t) (run.map liOf)]) ++
            (hParts r ++ childParts r)) [] none := by
        simp [flushOf, hbuf, List.append_assoc]
      rw [hstate, walk_out_frame rs _ [] none, nonlist_step r rs hk]
      simp only [join_append, join_cons, join_nil, join_hParts, join_childParts,
        blocks_to_html_join rs, htmlParts_flush rs, wrapList_container, str_append_assoc,
        str_append_nil, str_nil_append]
    | some t' =>
      have ht' : ¬((some t : Option String) = some t') := by
        intro hEq
        rw [← hEq] at hk
        exact hbr' hk
      rw [processBlock_kind_change hk _ _ _ ht']
      have hstate : WalkSt.mk (runChildrenParts run ++
            flushOf ⟨runChildrenParts run, run.map liOf, some t⟩ ++ childParts r) [liOf r]
            (some t') =
          WalkSt.mk ((runChildrenParts run ++ [wrapList (some t) (run.map liOf)]) ++
            childParts r) [liOf r] (some t') := by
        simp [flushOf, hbuf, List.append_assoc]
      rw [hstate, walk_out_frame rs _ [liOf r] (some t')]
      have hfresh : blocks_to_html (r :: rs) =
          String.join (childParts r) ++
            String.join ((walkBlocks rs ⟨[], [liOf r], some t'⟩).html_parts ++
              flushOf (walkBlocks rs ⟨[], [liOf r], some t'⟩)) := by
        rw [blocks_to_html_join, htmlParts_flush, walkBlocks_cons,
          processBlock_kind_change hk _ _ _ (by simp)]
        have hstate2 : WalkSt.mk (([] : List String) ++ flushOf ⟨[], [], none⟩ ++ childParts r)
            [liOf r] (some t') = WalkSt.mk (childParts r) [liOf r] (some t') := by
          simp [flushOf]
        rw [hstate2, walk_out_frame rs _ [liOf r] (some t')]
      rw [hfresh]
      simp only [join_append, join_cons, join_nil, wrapList_container, str_append_assoc,
        str_append_nil, str_nil_append]

/-! ## Claim C1 -/

/-- Claim C1, counterexample.  The claim states that a block marked as
having children is immediately followed by its children's rendered
fragment — "including when the parent block is a bulleted or numbered
list item".  For a bulleted list item with a paragraph child, the
walker stores the parent's `<li>` fragment in the list buffer but
appends the child's fragment directly to `html_parts`, so the output
is the children's fragment followed by the parent's container: the
children's fragment `<p>x</p>` is the head of the output and the
parent's own fragment does not precede it. -/
theorem C1_counterexample :
    blocks_to_html [mkBullet "a" [mkPara "x"]] = "<p>x</p><ul><li>a</li></ul>" ∧
    childHtml (mkBullet "a" [mkPara "x"]) = "<p>x</p>" ∧
    liOf (mkBullet "a" [mkPara "x"]) = "<li>a</li>" ∧
    headSeg "<p>x</p>".data "<p>x</p><ul><li>a</li></ul>".data ∧
    ¬headSeg "<li>a</li>".data "<p>x</p><ul><li>a</li></ul>".data ∧
    ¬headSeg "<ul>".data "<p>x</p><ul><li>a</li></ul>".data := by
  have hinner : blocks_to_html [mkPara "x"] = "<p>x</p>" := by
    rw [nonlist_step (mkPara "x") [] rfl, blocks_to_html_nil]
    rfl
  have hchildB : childHtml (mkBullet "a" [mkPara "x"]) = "<p>x</p>" := by
    rw [childHtml, if_pos (show truthyOpt ((mkBullet "a" [mkPara "x"]).data.get "has_children") = true from rfl)]
    exact hinner
  have hmain : blocks_to_html [mkBullet "a" [mkPara "x"]] = "<p>x</p><ul><li>a</li></ul>" := by
    have h := run_step "ul" [mkBullet "a" [mkPara "x"]] [] (by simp)
      (by intro x hx; rw [List.mem_singleton.mp hx]; rfl) trivial
    rw [List.append_nil] at h
    rw [h, blocks_to_html_nil]
    have hrcp : runChildrenParts [mkBullet "a" [mkPara "x"]] = ["<p>x</p>"] := by
      simp [runChildrenParts, childParts, hchildB]
    rw [hrcp]
    rfl
  refine ⟨hmain, hchildB, rfl, ?_, ?_, ?_⟩ <;> unfold headSeg <;> decide

/-- Claim C1 (amended).  For a block that is not a list item, the
walker emits the block's own fragment immediately followed by the
recursively rendered children fragment, before any content of the next
sibling; for a bulleted or numbered list item however the children's
fragment is emitted before the parent's list container (which is only
flushed when the run ends). -/
theorem C1_children_placement (b : BTree) (rest : List BTree) :
    (listKindOf b = none →
      blocks_to_html (b :: rest) = liOf b ++ childHtml b ++ blocks_to_html rest) ∧
    (∀ t, listKindOf b = some t → breaksRun t rest →
      blocks_to_html (b :: rest) = childHtml b ++ (containerOf t [b] ++ blocks_to_html rest)) := by
  constructor
  · intro h
    exact nonlist_step b rest h
  · intro t ht hbr
    have h := run_step t [b] rest (by simp) (by intro x hx; rw [List.mem_singleton.mp hx]; exact ht) hbr
    rw [List.singleton_append] at h
    rw [h]
    have hrcp : String.join (runChildrenParts [b]) = childHtml b := by
      simp [runChildrenParts, join_childParts]
    rw [hrcp, str_append_assoc]

/-- Claim C1, witness: a toggle block with a paragraph child followed
by a sibling paragraph renders as its own fragment, then the child's
fragment, then the sibling's. -/
theorem C1_witness :
    blocks_to_html [mkToggle "t" [mkPara "inside"], mkPara "after"] =
      "<details><summary>t</summary></details>" ++ "<p>inside</p>" ++ "<p>after</p>" := by
  have h := (C1_children_placement (mkToggle "t" [mkPara "inside"]) [mkPara "after"]).1 rfl
  rw [h]
  have hinside : blocks_to_html [mkPara "inside"] = "<p>inside</p>" := by
    rw [nonlist_step (mkPara "inside") [] rfl, blocks_to_html_nil]
    rfl
  have hafter : blocks_to_html [mkPara "after"] = "<p>after</p>" := by
    rw [nonlist_step (mkPara "after") [] rfl, blocks_to_html_nil]
    rfl
  have hchild : childHtml (mkToggle "t" [mkPara "inside"]) = "<p>inside</p>" := by
    rw [childHtml, if_pos (show truthyOpt ((mkToggle "t" [mkPara "inside"]).data.get "has_children") = true from rfl)]
    exact hinside
  rw [hchild, hafter]
  rfl

/-! ## Claim C2 -/

/-- Claim C2.  For a sibling sequence beginning with a maximal run of
same-kind list items (all of kind `t`, and the remainder absent or
beginning with a block of a different kind), the walker emits exactly
one `<t>…</t>` container wrapping all the run's `<li>` fragments,
closed before the remainder's own output, which continues from a fresh
state — so the container is flushed exactly at a kind change, at a
non-list block, or at the end of the siblings.  Together with
`nonlist_step` this characterizes the whole output of
`blocks_to_html`: every maximal run anywhere in the sibling sequence
is wrapped in exactly one container.  (The run's child fragments are
emitted before the container, cf. claim C1.) -/
theorem C2_run_grouping (t : String) (run rest : List BTree) (hne : run ≠ [])
    (hall : ∀ b ∈ run, listKindOf b = some t) (hbr : breaksRun t rest) :
    blocks_to_html (run ++ rest) =
      String.join (runChildrenParts run) ++ containerOf t run ++ blocks_to_html rest :=
  run_step t run rest hne hall hbr

/-- Claim C2, witness: two childless bulleted items followed by a
numbered item and a paragraph produce one `<ul>` container, then one
`<ol>` container closed before the paragraph's fragment. -/
theorem C2_witness :
    blocks_to_html ([mkBullet "a" [], mkBullet "b" []] ++ [mkNum "c", mkPara "p"]) =
      "<ul><li>a</li><li>b</li></ul>" ++ ("<ol><li>c</li></ol>" ++ "<p>p</p>") := by
  rw [C2_run_grouping "ul" [mkBullet "a" [], mkBullet "b" []] [mkNum "c", mkPara "p"]
    (by simp)
    (by
      intro x hx
      rcases List.mem_cons.mp hx with rfl | hx2
      · rfl
      · rw [List.mem_singleton.mp hx2]; rfl)
    (by
      show ¬listKindOf (mkNum "c") = some "ul"
      decide)]
  have h2 := C2_run_grouping "ol" [mkNum "c"] [mkPara "p"] (by simp)
    (by intro x hx; rw [List.mem_singleton.mp hx]; rfl)
    (by show ¬listKindOf (mkPara "p") = some "ol"; decide)
  rw [List.singleton_append] at h2
  rw [h2]
  rw [nonlist_step (mkPara "p") [] rfl, blocks_to_html_nil]
  have hrc1 : runChildrenParts [mkBullet "a" [], mkBullet "b" []] = [] := rfl
  have hrc2 : runChildrenParts [mkNum "c"] = [] := rfl
  rw [hrc1, hrc2]
  rfl

/-! ## Claim C3 -/

/-- Claim C3.  A span with all four annotations true and a hyperlink
renders with the wraps applied in the fixed order bold, italic, code,
strikethrough — bold innermost, since it is applied first — and the
anchor tag wrapping the entire already-formatted content; spans are
concatenated in input order with no separators, and the empty span
sequence renders to the empty string. -/
theorem C3_annotation_nesting :
    (∀ t u : String, u ≠ "" →
      renderTextObj (allAnnotSpan t u) =
        "<a href=\"" ++ u ++ "\">" ++
          ("<s>" ++ ("<code>" ++ ("<em>" ++ ("<strong>" ++ t ++ "</strong>") ++ "</em>") ++
            "</code>") ++ "</s>") ++ "</a>") ∧
    (∀ elems : List Json,
      notion_rich_text_to_html (Json.arr elems) = String.join (elems.map renderTextObj)) ∧
    notion_rich_text_to_html (Json.arr []) = "" := by
  refine ⟨?_, ?_, rfl⟩
  · intro t u hu
    simp [renderTextObj, allAnnotSpan, Json.get, Json.lookupField, truthyOpt, Json.truthy,
      pyStr, hu]
  · intro elems
    by_cases h : elems = []
    · subst h; rfl
    · simp [notion_rich_text_to_html, Json.truthy, h]

/-- Claim C3, witness: the concrete nesting for text `T` and link `U`. -/
theorem C3_witness :
    renderTextObj (allAnnotSpan "T" "U") =
      "<a href=\"U\"><s><code><em><strong>T</strong></em></code></s></a>" := by
  rw [C3_annotation_nesting.1 "T" "U" (by decide)]
  rfl

/-! ## Claim C4 -/

/-- Claim C4, counterexample.  The claim states the extractors return
their defaults rather than raising on a property record lacking a
`type` field or on a malformed date string; in fact `prop['type']`
raises `KeyError` and `datetime.fromisoformat` raises `ValueError`
there. -/
theorem C4_counterexample :
    extract_title (Json.obj [("Title", Json.obj [("title", Json.arr [])])]) =
      Except.error "KeyError: type" ∧
    extract_date (Json.obj [("Date", Json.obj [("type", Json.str "date"),
        ("date", Json.obj [("start", Json.str "not-a-date")])])]) ⟨2024, 1, 1⟩ =
      Except.error "ValueError: Invalid isoformat string: not-a-date" := by
  exact ⟨rfl, rfl⟩

/-- Claim C4 (amended).  Every extractor returns its documented
default when the named property is missing (empty bag) or carries the
wrong declared type (here a `url`-typed record); malformed values, by
contrast, raise (see the counterexample) and are only caught by the
orchestrator's per-page try/except. -/
theorem C4_tolerant_defaults (now : PyDate) :
    extract_title (Json.obj []) = Except.ok "Untitled" ∧
    extract_date (Json.obj []) now = Except.ok (strftimeBDY now) ∧
    extract_category (Json.obj []) = Except.ok (Json.str "General") ∧
    extract_tags (Json.obj []) = Except.ok [] ∧
    extract_published_status (Json.obj []) = Except.ok (Json.bool true) ∧
    extract_excerpt (Json.obj []) "" = Except.ok "No excerpt available." ∧
    extract_title (Json.obj [("Title", Json.obj [("type", Json.str "url")])]) =
      Except.ok "Untitled" ∧
    extract_date (Json.obj [("Date", Json.obj [("type", Json.str "url")])]) now =
      Except.ok (strftimeBDY now) ∧
    extract_category (Json.obj [("Category", Json.obj [("type", Json.str "url")])]) =
      Except.ok (Json.str "General") ∧
    extract_tags (Json.obj [("Tags", Json.obj [("type", Json.str "url")])]) =
      Except.ok [] ∧
    extract_published_status (Json.obj [("Status", Json.obj [("type", Json.str "url")])]) =
      Except.ok (Json.bool true) ∧
    extract_excerpt (Json.obj [("Excerpt", Json.obj [("type", Json.str "url")])]) "" =
      Except.ok "No excerpt available." := by
  exact ⟨rfl, rfl, rfl, rfl, rfl, rfl, rfl, rfl, rfl, rfl, rfl, rfl⟩

/-! ## Claim C5 -/

/-- Claim C5.  The date extractor parses the `date`-typed range start
(or the `created_time`-typed value) as an ISO-8601 timestamp after the
`Z`-to-`+00:00` normalization and reformats it as abbreviated month,
zero-padded day, four-digit year; the two documented inputs both yield
`Jan 05, 2024`, ignoring the time of day. -/
theorem C5_date_formatting (now : PyDate) :
    extract_date (Json.obj [("Date", Json.obj [("type", Json.str "date"),
        ("date", Json.obj [("start", Json.str "2024-01-05")])])]) now =
      Except.ok "Jan 05, 2024" ∧
    extract_date (Json.obj [("Date", Json.obj [("type", Json.str "date"),
        ("date", Json.obj [("start", Json.str "2024-01-05T10:00:00Z")])])]) now =
      Except.ok "Jan 05, 2024" ∧
    extract_date (Json.obj [("Date", Json.obj [("type", Json.str "created_time"),
        ("created_time", Json.str "2024-01-05T10:00:00Z")])]) now =
      Except.ok "Jan 05, 2024" ∧
    pyReplaceZ "2024-01-05T10:00:00Z" = "2024-01-05T10:00:00+00:00" := by
  exact ⟨rfl, rfl, rfl, rfl⟩

/-! ## Claim C6 -/

/-- Claim C6, counterexample.  The claim says the fallback excerpt is
the text of the first `<p>…</p>` fragment of the content HTML; but the
pattern `<p>(.*?)</p>` is matched with `.` not matching a newline, so
for `<p>a\nb</p><p>c</p>` the first fragment `<p>a\nb</p>` (whose body
is `a\nb`) is skipped and the excerpt is `c`. -/
theorem C6_counterexample :
    extract_excerpt (Json.obj []) "<p>a\nb</p><p>c</p>" = Except.ok "c" ∧
    (Except.ok "c" : Except String String) ≠ Except.ok "a\nb" := by
  refine ⟨rfl, fun h => absurd (Except.ok.inj h) (by decide)⟩

set_option maxRecDepth 4000 in
/-- Claim C6 (amended).  The excerpt extractor prefers the explicit
`rich_text`-typed property's concatenated plain text when non-empty;
otherwise it takes the body of the first `<p>(.*?)</p>` regex match of
the content HTML (the first paragraph whose body contains no newline),
strips embedded tags, and truncates to 200 characters plus an ellipsis
when longer; otherwise the fixed literal.  In particular the
documented example yields `Hello world`. -/
theorem C6_excerpt_behaviour :
    (∀ e content : String, e ≠ "" →
      extract_excerpt (Json.obj [("Excerpt", Json.obj [("type", Json.str "rich_text"),
        ("rich_text", mkRT e)])]) content = Except.ok e) ∧
    extract_excerpt (Json.obj []) "<h1>Title</h1><p>Hello <strong>world</strong></p>" =
      Except.ok "Hello world" ∧
    extract_excerpt (Json.obj []) ("<p>" ++ String.mk (List.replicate 201 'a') ++ "</p>") =
      Except.ok (String.mk (List.replicate 200 'a') ++ "...") ∧
    extract_excerpt (Json.obj []) "<h1>Title</h1>" = Except.ok "No excerpt available." := by
  refine ⟨?_, rfl, ?_, rfl⟩
  · intro e content he
    have hjoin : String.join [e] = e := by rw [join_cons, join_nil, str_append_nil]
    have he' : (e == "") = false := by simp [he]
    simp [extract_excerpt, joinPlainTexts, mkRT, pyGet, pyGetD, pyOr, pyIndexS, pyIterFor,
      pyAsStr, Json.get, Json.lookupField, Json.truthy, truthyOpt, hjoin, he, he',
      Bind.bind, Except.bind, Pure.pure, Except.pure, Except.map, List.mapM.loop]
  · rfl

/-- Claim C6, witness: the explicit-excerpt branch at a concrete
non-empty excerpt. -/
theorem C6_witness :
    extract_excerpt (Json.obj [("Excerpt", Json.obj [("type", Json.str "rich_text"),
      ("rich_text", mkRT "An excerpt")])]) "<p>unused</p>" = Except.ok "An excerpt" :=
  C6_excerpt_behaviour.1 "An excerpt" "<p>unused</p>" (by decide)

/-! ## Claim C9 -/

/-- Claim C9.  For a paginated source whose pages all signal has-more
except the last, `fetch_blocks` follows the continuation cursor page
by page until the no-more signal and returns the concatenation of all
pages' result lists in fetch order (the assembled list is returned
before any rendering can consume it). -/
theorem C9_pagination (ps : List ListChildrenResp) (q : ListChildrenResp)
    (hps : ∀ p ∈ ps, p.has_more = true) (hq : q.has_more = false) :
    fetch_blocks (ps ++ [q]) = ((ps ++ [q]).map ListChildrenResp.results).flatten := by
  have h : ∀ (ps' : List ListChildrenResp), (∀ p ∈ ps', p.has_more = true) →
      ∀ (acc : List Json) (cur : Json),
      fetchLoop (ps' ++ [q]) acc cur = acc ++ ((ps' ++ [q]).map ListChildrenResp.results).flatten := by
    intro ps'
    induction ps' with
    | nil =>
      intro _ acc cur
      simp [fetchLoop, hq]
    | cons p ps'' ih =>
      intro hall acc cur
      have hp : p.has_more = true := hall p (by simp)
      simp only [List.cons_append, fetchLoop, hp, if_true, List.append_eq]
      rw [ih (fun x hx => hall x (by simp [hx])) (acc ++ p.results) p.next_cursor]
      simp [List.append_assoc]
  exact h ps hps [] Json.null

/-- Claim C9, witness: a three-page source (the third page unreachable
because the second signals no-more is not part of the source shape;
here two pages, the last signalling no more results). -/
theorem C9_witness :
    fetch_blocks [⟨[Json.str "a", Json.str "b"], true, Json.str "cursor1"⟩,
        ⟨[Json.str "c"], false, Json.null⟩] =
      [Json.str "a", Json.str "b", Json.str "c"] := by
  have h := C9_pagination [⟨[Json.str "a", Json.str "b"], true, Json.str "cursor1"⟩]
    ⟨[Json.str "c"], false, Json.null⟩
    (by intro p hp; rw [List.mem_singleton.mp hp])
    rfl
  rw [List.singleton_append] at h
  rw [h]
  rfl

/-! ## Sort machinery lemmas -/

theorem mem_insertDesc {x y : Nat × BlogEntry} : ∀ {l : List (Nat × BlogEntry)},
    y ∈ insertDesc x l ↔ y = x ∨ y ∈ l := by
  intro l
  induction l with
  | nil => simp [insertDesc]
  | cons z rest ih =>
    rw [insertDesc]
    split_ifs with h
    · simp [List.mem_cons]
    · simp only [List.mem_cons, ih]
      tauto

theorem length_insertDesc (x : Nat × BlogEntry) : ∀ (l : List (Nat × BlogEntry)),
    (insertDesc x l).length = l.length + 1 := by
  intro l
  induction l with
  | nil => rfl
  | cons z rest ih =>
    rw [insertDesc]
    split_ifs with h
    · simp
    · simp [ih]

theorem length_sortDesc : ∀ (l : List (Nat × BlogEntry)),
    (sortDescByKey l).length = l.length := by
  intro l
  induction l with
  | nil => rfl
  | cons x rest ih => rw [sortDescByKey, length_insertDesc, ih, List.length_cons]

theorem mem_sortDesc {y : Nat × BlogEntry} : ∀ {l : List (Nat × BlogEntry)},
    y ∈ sortDescByKey l ↔ y ∈ l := by
  intro l
  induction l with
  | nil => simp [sortDescByKey]
  | cons x rest ih =>
    rw [sortDescByKey, mem_insertDesc]
    simp [ih]

theorem pairwise_insertDesc (x : Nat × BlogEntry) : ∀ (l : List (Nat × BlogEntry)),
    List.Pairwise (fun a b => b.1 ≤ a.1) l →
    List.Pairwise (fun a b => b.1 ≤ a.1) (insertDesc x l) := by
  intro l
  induction l with
  | nil => intro _; simp [insertDesc]
  | cons z rest ih =>
    intro hp
    rw [List.pairwise_cons] at hp
    obtain ⟨hz, hrest⟩ := hp
    rw [insertDesc]
    split_ifs with h
    · rw [List.pairwise_cons]
      constructor
      · intro y hy
        rcases List.mem_cons.mp hy with rfl | hy2
        · exact h
        · exact Nat.le_trans (hz y hy2) h
      · rw [List.pairwise_cons]
        exact ⟨hz, hrest⟩
    · rw [List.pairwise_cons]
      constructor
      · intro y hy
        rcases mem_insertDesc.mp hy with rfl | hy2
        · exact Nat.le_of_lt (Nat.lt_of_not_le h)
        · exact hz y hy2
      · exact ih hrest

theorem pairwise_sortDesc : ∀ (l : List (Nat × BlogEntry)),
    List.Pairwise (fun a b => b.1 ≤ a.1) (sortDescByKey l) := by
  intro l
  induction l with
  | nil => simp [sortDescByKey]
  | cons x rest ih => exact pairwise_insertDesc x _ ih

theorem filter_insertDesc (k : Nat) (x : Nat × BlogEntry) : ∀ (l : List (Nat × BlogEntry)),
    (insertDesc x l).filter (fun q => q.1 == k) =
      if x.1 = k then x :: l.filter (fun q => q.1 == k) else l.filter (fun q => q.1 == k) := by
  intro l
  induction l with
  | nil =>
    by_cases hx : x.1 = k <;> simp [insertDesc, List.filter_cons, hx]
  | cons z rest ih =>
    rw [insertDesc]
    by_cases hx : x.1 = k
    · rw [if_pos hx]
      by_cases h : z.1 ≤ x.1
      · rw [if_pos h]
        simp [List.filter_cons, hx]
      · rw [if_neg h]
        have hzk : ¬z.1 = k := fun hz => h (by rw [hz, hx])
        simp [List.filter_cons, hzk, ih, hx]
    · rw [if_neg hx]
      by_cases h : z.1 ≤ x.1
      · rw [if_pos h]
        simp [List.filter_cons, hx]
      · rw [if_neg h]
        simp only [List.filter_cons, ih, if_neg hx]

theorem filter_sortDesc (k : Nat) : ∀ (l : List (Nat × BlogEntry)),
    (sortDescByKey l).filter (fun q => q.1 == k) = l.filter (fun q => q.1 == k) := by
  intro l
  induction l with
  | nil => rfl
  | cons x rest ih =>
    rw [sortDescByKey, filter_insertDesc k x, List.filter_cons]
    by_cases hx : x.1 = k
    · rw [if_pos hx, ih]
      simp [hx]
    · rw [if_neg hx, ih]
      simp [hx]

theorem map_insertDesc (f : Nat × BlogEntry → Nat × BlogEntry)
    (hf : ∀ p, (f p).1 = p.1) (x : Nat × BlogEntry) : ∀ (l : List (Nat × BlogEntry)),
    (insertDesc x l).map f = insertDesc (f x) (l.map f) := by
  intro l
  induction l with
  | nil => rfl
  | cons z rest ih =>
    rw [insertDesc]
    by_cases h : z.1 ≤ x.1
    · rw [if_pos h]
      simp only [List.map_cons]
      rw [insertDesc, if_pos (by rw [hf z, hf x]; exact h)]
    · rw [if_neg h]
      simp only [List.map_cons]
      rw [insertDesc, if_neg (by rw [hf z, hf x]; exact h), ih]

theorem map_sortDesc (f : Nat × BlogEntry → Nat × BlogEntry)
    (hf : ∀ p, (f p).1 = p.1) : ∀ (l : List (Nat × BlogEntry)),
    (sortDescByKey l).map f = sortDescByKey (l.map f) := by
  intro l
  induction l with
  | nil => rfl
  | cons x rest ih =>
    rw [sortDescByKey, map_insertDesc f hf, ih, List.map_cons, sortDescByKey]

theorem buildKeyed_ok : ∀ (blogs : List BlogEntry) (keyed : List (Nat × BlogEntry)),
    buildKeyed blogs = Except.ok keyed →
    keyed.map Prod.snd = blogs ∧
      ∀ p ∈ keyed, ∃ d, pyStrptimeBDY p.2.date = Except.ok d ∧ p.1 = dateKey d := by
  intro blogs
  induction blogs with
  | nil =>
    intro keyed h
    rw [buildKeyed, List.mapM_nil] at h
    cases h
    exact ⟨rfl, by simp⟩
  | cons b bs ih =>
    intro keyed h
    rw [buildKeyed, List.mapM_cons] at h
    cases hd : pyStrptimeBDY b.date with
    | error e =>
      rw [show ((pyStrptimeBDY b.date).map fun d => (dateKey d, b)) = Except.error e by
        rw [hd]; rfl] at h
      simp [Bind.bind, Except.bind] at h
    | ok d =>
      rw [show ((pyStrptimeBDY b.date).map fun d => (dateKey d, b)) =
          Except.ok (dateKey d, b) by rw [hd]; rfl] at h
      cases hrest : List.mapM (fun b => (pyStrptimeBDY b.date).map fun d => (dateKey d, b)) bs with
      | error e =>
        rw [hrest] at h
        simp [Bind.bind, Except.bind] at h
      | ok ks =>
        rw [hrest] at h
        simp only [Bind.bind, Except.bind, Pure.pure, Except.pure] at h
        cases h
        obtain ⟨ih1, ih2⟩ := ih ks hrest
        constructor
        · rw [List.map_cons, ih1]
        · intro p hp
          rcases List.mem_cons.mp hp with rfl | hp2
          · exact ⟨d, hd, rfl⟩
          · exact ih2 p hp2

theorem length_reassignIds (i : Nat) : ∀ (l : List BlogEntry),
    (reassignIds i l).length = l.length := by
  intro l
  induction l generalizing i with
  | nil => rfl
  | cons b rest ih => rw [reassignIds, List.length_cons, List.length_cons, ih]

theorem map_id_reassignIds : ∀ (l : List BlogEntry) (i : Nat),
    (reassignIds i l).map BlogEntry.id = List.range' i l.length := by
  intro l
  induction l with
  | nil => intro i; rfl
  | cons b rest ih =>
    intro i
    rw [reassignIds, List.map_cons, ih (i + 1), List.length_cons, List.range'_succ]

theorem map_strip_reassignIds : ∀ (l : List BlogEntry) (i : Nat),
    (reassignIds i l).map stripId = l.map stripId := by
  intro l
  induction l with
  | nil => intro i; rfl
  | cons b rest ih =>
    intro i
    rw [reassignIds, List.map_cons, List.map_cons, ih (i + 1)]
    rfl

theorem reassignIds_of_strip : ∀ (l : List BlogEntry) (i : Nat),
    reassignIds i (l.map stripId) = reassignIds i l := by
  intro l
  induction l with
  | nil => intro i; rfl
  | cons b rest ih =>
    intro i
    rw [List.map_cons, reassignIds, reassignIds, ih (i + 1)]
    rfl

theorem mem_reassignIds {z : BlogEntry} : ∀ {l : List BlogEntry} {i : Nat},
    z ∈ reassignIds i l → ∃ e ∈ l, ∃ k, z = { e with id := k } := by
  intro l
  induction l with
  | nil => intro i h; simp [reassignIds] at h
  | cons b rest ih =>
    intro i h
    rw [reassignIds] at h
    rcases List.mem_cons.mp h with rfl | h2
    · exact ⟨b, by simp, i, rfl⟩
    · obtain ⟨e, he, k, hk⟩ := ih h2
      exact ⟨e, by simp [he], k, hk⟩

theorem pairwise_reassignIds (R : BlogEntry → BlogEntry → Prop)
    (hR : ∀ a b i j, R a b → R { a with id := i } { b with id := j }) :
    ∀ (l : List BlogEntry) (i : Nat), List.Pairwise R l → List.Pairwise R (reassignIds i l) := by
  intro l
  induction l with
  | nil => intro i _; simp [reassignIds]
  | cons b rest ih =>
    intro i hp
    rw [List.pairwise_cons] at hp
    obtain ⟨hb, hrest⟩ := hp
    rw [reassignIds, List.pairwise_cons]
    constructor
    · intro z hz
      obtain ⟨e, he, k, hk⟩ := mem_reassignIds hz
      rw [hk]
      exact hR b e i k (hb e he)
    · exact ih (i + 1) hrest

theorem dkey_stripId (b : BlogEntry) : dkey (stripId b) = dkey b := rfl

theorem dkey_set_id (b : BlogEntry) (i : Nat) : dkey { b with id := i } = dkey b := rfl

theorem except_bind_map {α β γ : Type} (ex : Except String α) (f : α → Except String β)
    (g : α → Except String γ) (m : γ → β) (h : ∀ a, f a = Except.map m (g a)) :
    ex >>= f = Except.map m (ex >>= g) := by
  cases ex with
  | error e => rfl
  | ok a => exact h a

theorem buildKeyed_cons (b : BlogEntry) (bs : List BlogEntry) :
    buildKeyed (b :: bs) =
      (pyStrptimeBDY b.date).map (fun d => (dateKey d, b)) >>= fun y =>
        buildKeyed bs >>= fun ys => pure (y :: ys) := by
  rw [buildKeyed, List.mapM_cons]
  rfl

theorem buildKeyed_congr : ∀ (l₁ l₂ : List BlogEntry), l₁.map stripId = l₂.map stripId →
    (∃ e, buildKeyed l₁ = Except.error e ∧ buildKeyed l₂ = Except.error e) ∨
    (∃ k₁ k₂, buildKeyed l₁ = Except.ok k₁ ∧ buildKeyed l₂ = Except.ok k₂ ∧
      k₁.map (fun p => (p.1, stripId p.2)) = k₂.map (fun p => (p.1, stripId p.2))) := by
  intro l₁
  induction l₁ with
  | nil =>
    intro l₂ h
    cases l₂ with
    | nil => exact Or.inr ⟨[], [], rfl, rfl, rfl⟩
    | cons b bs => simp at h
  | cons b₁ bs₁ ih =>
    intro l₂ h
    cases l₂ with
    | nil => simp at h
    | cons b₂ bs₂ =>
      simp only [List.map_cons, List.cons.injEq] at h
      obtain ⟨hb, hbs⟩ := h
      have hdate : b₁.date = b₂.date :=
        show (stripId b₁).date = (stripId b₂).date from congrArg BlogEntry.date hb
      cases hd : pyStrptimeBDY b₁.date with
      | error e =>
        refine Or.inl ⟨e, ?_, ?_⟩
        · rw [buildKeyed_cons, hd]
          rfl
        · rw [buildKeyed_cons, ← hdate, hd]
          rfl
      | ok d =>
        rcases ih bs₂ hbs with ⟨e, h1, h2⟩ | ⟨k₁, k₂, h1, h2, h3⟩
        · refine Or.inl ⟨e, ?_, ?_⟩
          · rw [buildKeyed_cons, hd, h1]
            rfl
          · rw [buildKeyed_cons, ← hdate, hd, h2]
            rfl
        · refine Or.inr ⟨(dateKey d, b₁) :: k₁, (dateKey d, b₂) :: k₂, ?_, ?_, ?_⟩
          · rw [buildKeyed_cons, hd, h1]
            rfl
          · rw [buildKeyed_cons, ← hdate, hd, h2]
            rfl
          · simp only [List.map_cons, h3, hb]

theorem sortAndReid_congr (l₁ l₂ : List BlogEntry) (h : l₁.map stripId = l₂.map stripId) :
    sortAndReid l₁ = sortAndReid l₂ := by
  rcases buildKeyed_congr l₁ l₂ h with ⟨e, h1, h2⟩ | ⟨k₁, k₂, h1, h2, h3⟩
  · simp [sortAndReid, h1, h2, Bind.bind, Except.bind]
  · simp only [sortAndReid, h1, h2, Bind.bind, Except.bind, Pure.pure, Except.pure]
    congr 1
    rw [← reassignIds_of_strip ((sortDescByKey k₁).map (fun p => p.2)) 1,
      ← reassignIds_of_strip ((sortDescByKey k₂).map (fun p => p.2)) 1]
    congr 1
    rw [List.map_map, List.map_map]
    have hcomp : (stripId ∘ fun p : Nat × BlogEntry => p.2) =
        (fun p : Nat × BlogEntry => p.2) ∘ (fun p => (p.1, stripId p.2)) := rfl
    rw [hcomp, ← List.map_map, ← List.map_map,
      map_sortDesc (fun p => (p.1, stripId p.2)) (fun p => rfl),
      map_sortDesc (fun p => (p.1, stripId p.2)) (fun p => rfl), h3]

theorem processPage_id (i j : Nat) (pg : Json) (bs : List BTree) (now : PyDate) :
    processPage i pg bs now =
      Except.map (Option.map (fun e => { e with id := i })) (processPage j pg bs now) := by
  unfold processPage
  refine except_bind_map _ _ _ _ (fun properties => ?_)
  refine except_bind_map _ _ _ _ (fun pub => ?_)
  by_cases hpub : pub.truthy = false
  · rw [if_pos hpub, if_pos hpub]
    rfl
  · rw [if_neg hpub, if_neg hpub]
    refine except_bind_map _ _ _ _ (fun title => ?_)
    refine except_bind_map _ _ _ _ (fun date => ?_)
    refine except_bind_map _ _ _ _ (fun category => ?_)
    refine except_bind_map _ _ _ _ (fun tags => ?_)
    refine except_bind_map _ _ _ _ (fun _page_id => ?_)
    refine except_bind_map _ _ _ _ (fun excerpt => ?_)
    rfl

theorem processPages_append : ∀ (xs ys : List (Json × List BTree)) (i : Nat) (now : PyDate),
    processPages (xs ++ ys) i now = processPages xs i now ++ processPages ys (i + xs.length) now := by
  intro xs
  induction xs with
  | nil => intro ys i now; simp [processPages]
  | cons p rest ih =>
    intro ys i now
    obtain ⟨pg, bs⟩ := p
    rw [List.cons_append, processPages, processPages]
    have hlen : i + ((pg, bs) :: rest).length = (i + 1) + rest.length := by
      simp [List.length_cons]
      omega
    cases h : processPage i pg bs now with
    | error e => rw [ih ys (i + 1) now, hlen]
    | ok o =>
      cases o with
      | none => rw [ih ys (i + 1) now, hlen]
      | some e => rw [ih ys (i + 1) now, hlen, List.cons_append]

theorem processPages_strip : ∀ (pages : List (Json × List BTree)) (i j : Nat) (now : PyDate),
    (processPages pages i now).map stripId = (processPages pages j now).map stripId := by
  intro pages
  induction pages with
  | nil => intro i j now; rfl
  | cons p rest ih =>
    intro i j now
    obtain ⟨pg, bs⟩ := p
    rw [processPages, processPages, processPage_id i j pg bs now]
    cases h : processPage j pg bs now with
    | error e => exact ih (i + 1) (j + 1) now
    | ok o =>
      cases o with
      | none => exact ih (i + 1) (j + 1) now
      | some e =>
        show stripId { e with id := i } :: List.map stripId (processPages rest (i + 1) now) =
          stripId e :: List.map stripId (processPages rest (j + 1) now)
        rw [ih (i + 1) (j + 1) now]
        rfl

theorem processPage_draft (k : Nat) (bs : List BTree) (now : PyDate) :
    processPage k draftPage bs now = Except.ok none := by
  rfl

/-! ## Claim C7 -/

/-- Claim C7.  After the final sort and re-assignment, the output has
the input's length, its ids are exactly the sequence 1, 2, …, n in
output order, it is ordered by non-increasing parsed date, and for
every date key the subsequence of entries with that key (compared
modulo the rewritten id) is exactly the input's subsequence with that
key — the sort is stable. -/
theorem C7_sorted_reid (blogs out : List BlogEntry) (h : sortAndReid blogs = Except.ok out) :
    out.length = blogs.length ∧
    out.map BlogEntry.id = List.range' 1 blogs.length ∧
    List.Pairwise (fun a b => dkey b ≤ dkey a) out ∧
    ∀ k : Nat, (out.map stripId).filter (fun b => dkey b == k) =
      (blogs.map stripId).filter (fun b => dkey b == k) := by
  cases hbk : buildKeyed blogs with
  | error e => simp [sortAndReid, hbk, Bind.bind, Except.bind] at h
  | ok keyed =>
    have hout : out = reassignIds 1 ((sortDescByKey keyed).map (fun p => p.2)) := by
      simp only [sortAndReid, hbk, Bind.bind, Except.bind, Pure.pure, Except.pure,
        Except.ok.injEq] at h
      exact h.symm
    obtain ⟨hsnd, hkeys⟩ := buildKeyed_ok blogs keyed hbk
    have hklen : keyed.length = blogs.length := by
      rw [← hsnd, List.length_map]
    have hlen : out.length = blogs.length := by
      rw [hout, length_reassignIds, List.length_map, length_sortDesc, hklen]
    refine ⟨hlen, ?_, ?_, ?_⟩
    · rw [hout, map_id_reassignIds, List.length_map, length_sortDesc, hklen]
    · have hp2 : List.Pairwise (fun p q : Nat × BlogEntry => dkey q.2 ≤ dkey p.2)
          (sortDescByKey keyed) := by
        refine (pairwise_sortDesc keyed).imp_of_mem ?_
        intro a b ha hb hab
        obtain ⟨da, hda, hka⟩ := hkeys a (mem_sortDesc.mp ha)
        obtain ⟨db, hdb, hkb⟩ := hkeys b (mem_sortDesc.mp hb)
        have hda' : dkey a.2 = a.1 := by rw [dkey, hda, hka]
        have hdb' : dkey b.2 = b.1 := by rw [dkey, hdb, hkb]
        rw [hda', hdb']
        exact hab
      have hp3 : List.Pairwise (fun a b : BlogEntry => dkey b ≤ dkey a)
          ((sortDescByKey keyed).map (fun p => p.2)) := by
        rw [List.pairwise_map]
        exact hp2
      rw [hout]
      refine pairwise_reassignIds _ ?_ _ 1 hp3
      intro a b i j hab
      rw [dkey_set_id, dkey_set_id]
      exact hab
    · intro k
      rw [hout, map_strip_reassignIds, List.map_map]
      rw [List.filter_map]
      have hc : ∀ q ∈ sortDescByKey keyed,
          ((fun b => dkey b == k) ∘ (stripId ∘ fun p : Nat × BlogEntry => p.2)) q =
            (q.1 == k) := by
        intro q hq
        obtain ⟨d, hd, hk⟩ := hkeys q (mem_sortDesc.mp hq)
        have : dkey (stripId q.2) = q.1 := by rw [dkey_stripId, dkey, hd, hk]
        simp [Function.comp, this]
      rw [List.filter_congr hc, filter_sortDesc]
      have hc2 : ∀ q ∈ keyed,
          (fun q : Nat × BlogEntry => q.1 == k) q =
            ((fun b => dkey b == k) ∘ (stripId ∘ fun p : Nat × BlogEntry => p.2)) q := by
        intro q hq
        obtain ⟨d, hd, hk⟩ := hkeys q hq
        have : dkey (stripId q.2) = q.1 := by rw [dkey_stripId, dkey, hd, hk]
        simp [Function.comp, this]
      rw [List.filter_congr hc2, ← List.filter_map, ← List.map_map, hsnd]

/-- Claim C7, witness: three posts, two sharing the date
`Jan 05, 2024` (the earlier-processed one staying first), sorted
descending with ids reassigned 1, 2, 3. -/
theorem C7_witness :
    ([⟨1, "t1", "e", "c", "Jan 05, 2024", Json.null, []⟩,
      ⟨2, "t3", "e", "c", "Jan 05, 2024", Json.null, []⟩,
      ⟨3, "t2", "e", "c", "Mar 01, 2023", Json.null, []⟩] : List BlogEntry).map BlogEntry.id =
      List.range' 1 3 ∧
    List.Pairwise (fun a b => dkey b ≤ dkey a)
      ([⟨1, "t1", "e", "c", "Jan 05, 2024", Json.null, []⟩,
        ⟨2, "t3", "e", "c", "Jan 05, 2024", Json.null, []⟩,
        ⟨3, "t2", "e", "c", "Mar 01, 2023", Json.null, []⟩] : List BlogEntry) := by
  have h := C7_sorted_reid
    [⟨7, "t1", "e", "c", "Jan 05, 2024", Json.null, []⟩,
     ⟨9, "t2", "e", "c", "Mar 01, 2023", Json.null, []⟩,
     ⟨3, "t3", "e", "c", "Jan 05, 2024", Json.null, []⟩]
    [⟨1, "t1", "e", "c", "Jan 05, 2024", Json.null, []⟩,
     ⟨2, "t3", "e", "c", "Jan 05, 2024", Json.null, []⟩,
     ⟨3, "t2", "e", "c", "Mar 01, 2023", Json.null, []⟩]
    (by rfl)
  exact ⟨h.2.1, h.2.2.1⟩

/-! ## Claim C8 -/

/-- Claim C8.  The published-status extractor returns the stored
checkbox value when the property is checkbox-typed, tests the selected
name case-insensitively against published/live/public when it is
select-typed (so `Draft` is unpublished), and defaults to `True` when
the property is absent; consequently a page whose `Status` is a
select-typed `Draft` is excluded from the output collection entirely —
the pipeline's result is the same as if the page were not there, so it
does not consume an id slot. -/
theorem C8_published_filtering :
    (∀ j : Json, extract_published_status (Json.obj [("Status",
        Json.obj [("type", Json.str "checkbox"), ("checkbox", j)])]) = Except.ok j) ∧
    (∀ s : String, extract_published_status (Json.obj [("Status",
        Json.obj [("type", Json.str "select"),
          ("select", Json.obj [("name", Json.str s)])])]) =
      Except.ok (Json.bool (decide (pyLower s = "published" ∨ pyLower s = "live" ∨
        pyLower s = "public")))) ∧
    (∀ fields : List (String × Json), Json.lookupField fields "Status" = none →
      Json.lookupField fields "Published" = none →
      extract_published_status (Json.obj fields) = Except.ok (Json.bool true)) ∧
    extract_published_status draftProps = Except.ok (Json.bool false) ∧
    (∀ (xs ys : List (Json × List BTree)) (bs : List BTree) (now : PyDate),
      sync_notion_to_blogs (xs ++ (draftPage, bs) :: ys) now =
        sync_notion_to_blogs (xs ++ ys) now) := by
  refine ⟨fun j => rfl, fun s => rfl, ?_, rfl, ?_⟩
  · intro fields h1 h2
    simp [extract_published_status, pyGet, h1, h2, pyOr, Bind.bind, Except.bind,
      Pure.pure, Except.pure]
  · intro xs ys bs now
    rw [sync_notion_to_blogs, sync_notion_to_blogs]
    apply sortAndReid_congr
    rw [processPages_append xs ((draftPage, bs) :: ys) 1 now,
      processPages_append xs ys 1 now, List.map_append, List.map_append]
    congr 1
    have hskip : processPages ((draftPage, bs) :: ys) (1 + xs.length) now =
        processPages ys (1 + xs.length + 1) now := by
      rw [processPages, processPage_draft]
    rw [hskip]
    exact processPages_strip ys (1 + xs.length + 1) (1 + xs.length) now

/-- Claim C8, witness: one published page between two skipped drafts
still produces a single post with id 1 (the drafts consume no id
slot).  The published page carries a checkbox status, title and date
properties. -/
theorem C8_witness :
    sync_notion_to_blogs
        [(draftPage, []),
         (Json.obj [("properties", Json.obj [("Status", Json.obj [("type", Json.str "checkbox"),
              ("checkbox", Json.bool true)]),
            ("Title", Json.obj [("type", Json.str "title"),
              ("title", Json.arr [Json.obj [("plain_text", Json.str "Post")]])]),
            ("Date", Json.obj [("type", Json.str "date"),
              ("date", Json.obj [("start", Json.str "2024-01-05")])])]),
           ("id", Json.str "page-1")], [mkPara "hello"]),
         (draftPage, [])] ⟨2024, 6, 1⟩ =
      sync_notion_to_blogs
        [(Json.obj [("properties", Json.obj [("Status", Json.obj [("type", Json.str "checkbox"),
              ("checkbox", Json.bool true)]),
            ("Title", Json.obj [("type", Json.str "title"),
              ("title", Json.arr [Json.obj [("plain_text", Json.str "Post")]])]),
            ("Date", Json.obj [("type", Json.str "date"),
              ("date", Json.obj [("start", Json.str "2024-01-05")])])]),
           ("id", Json.str "page-1")], [mkPara "hello"])] ⟨2024, 6, 1⟩ := by
  have h1 := C8_published_filtering.2.2.2.2 []
    [(Json.obj [("properties", Json.obj [("Status", Json.obj [("type", Json.str "checkbox"),
          ("checkbox", Json.bool true)]),
        ("Title", Json.obj [("type", Json.str "title"),
          ("title", Json.arr [Json.obj [("plain_text", Json.str "Post")]])]),
        ("Date", Json.obj [("type", Json.str "date"),
          ("date", Json.obj [("start", Json.str "2024-01-05")])])]),
       ("id", Json.str "page-1")], [mkPara "hello"]), (draftPage, [])] [] ⟨2024, 6, 1⟩
  have h2 := C8_published_filtering.2.2.2.2
    [(Json.obj [("properties", Json.obj [("Status", Json.obj [("type", Json.str "checkbox"),
          ("checkbox", Json.bool true)]),
        ("Title", Json.obj [("type", Json.str "title"),
          ("title", Json.arr [Json.obj [("plain_text", Json.str "Post")]])]),
        ("Date", Json.obj [("type", Json.str "date"),
          ("date", Json.obj [("start", Json.str "2024-01-05")])])]),
       ("id", Json.str "page-1")], [mkPara "hello"])] [] [] ⟨2024, 6, 1⟩
  simp only [List.nil_append] at h1
  simp only [List.append_nil, List.singleton_append] at h2
  rw [h1, h2]

/-! ## Claim C10 support: fragment shapes -/

theorem hasSeg_length {p l : List Char} (h : hasSeg p l) : p.length ≤ l.length := by
  rcases h with ⟨a, b, rfl⟩
  simp only [List.length_append]
  omega

theorem shape_concat (pre suf : String) (c : Char) (tail : List Char)
    (h : pre.data = '<' :: c :: tail) :
    (pre ++ suf).data = '<' :: c :: (tail ++ suf.data) := by
  rw [str_data_append, h]
  rfl

theorem liOf_kind {b : BTree} {t : String} (hk : listKindOf b = some t) :
    headSeg "<li>".data (liOf b).data := by
  unfold listKindOf at hk
  rcases htype : b.data.get "type" with _ | jt
  · rw [htype] at hk
    simp at hk
  · rw [htype] at hk
    cases jt with
    | str s =>
      by_cases hs1 : s = "bulleted_list_item"
      · subst hs1
        rw [liOf, notion_block_to_html, htype]
        simp only [Option.some.injEq, String.reduceEq, reduceIte]
        unfold headSeg
        rfl
      · by_cases hs2 : s = "numbered_list_item"
        · subst hs2
          rw [liOf, notion_block_to_html, htype]
          simp only [Option.some.injEq, String.reduceEq, reduceIte]
          unfold headSeg
          rfl
        · simp [hs1, hs2] at hk
    | null => simp at hk
    | bool bb => simp at hk
    | arr e => simp at hk
    | obj f => simp at hk

theorem goodPart_of_hasSeg {s : String} (h : hasSeg "<li>".data s.data) : goodPart s := by
  unfold goodPart
  exact ⟨hasSeg_length h, fun _ => h⟩

theorem goodPart_of_li {s : String} (h : headSeg "<li>".data s.data) : goodPart s :=
  goodPart_of_hasSeg (hasSeg_of_headSeg h)

theorem goodPart_shape {s : String} {c : Char} {r : List Char}
    (h : s.data = '<' :: c :: r) (h2 : 2 ≤ r.length) (hu : c ≠ 'u') (ho : c ≠ 'o') :
    goodPart s := by
  unfold goodPart
  constructor
  · rw [h]
    simp only [List.length_cons]
    omega
  · intro hh
    rcases hh with h1 | h1
    · rw [h] at h1
      have e : "<ul>".data = '<' :: 'u' :: 'l' :: '>' :: [] := rfl
      rw [e] at h1
      exact absurd (headSeg_cons.mp (headSeg_cons.mp h1).2).1.symm hu
    · rw [h] at h1
      have e : "<ol>".data = '<' :: 'o' :: 'l' :: '>' :: [] := rfl
      rw [e] at h1
      exact absurd (headSeg_cons.mp (headSeg_cons.mp h1).2).1.symm ho

theorem goodPart_cat3 (a b c : String) (ch : Char) (r0 : List Char)
    (ha : a.data = '<' :: ch :: r0) (hu : ch ≠ 'u') (ho : ch ≠ 'o')
    (hc : 2 ≤ c.data.length) : goodPart (a ++ b ++ c) := by
  refine goodPart_shape (shape_concat _ _ ch _ (shape_concat _ _ ch r0 ha)) ?_ hu ho
  simp only [List.length_append]
  omega

theorem goodPart_cat5 (a b c d e : String) (ch : Char) (r0 : List Char)
    (ha : a.data = '<' :: ch :: r0) (hu : ch ≠ 'u') (ho : ch ≠ 'o')
    (he : 2 ≤ e.data.length) : goodPart (a ++ b ++ c ++ d ++ e) := by
  refine goodPart_shape
    (shape_concat _ _ ch _ (shape_concat _ _ ch _
      (shape_concat _ _ ch _ (shape_concat _ _ ch r0 ha)))) ?_ hu ho
  simp only [List.length_append]
  omega

theorem goodPart_cat7 (a b c d e f g : String) (ch : Char) (r0 : List Char)
    (ha : a.data = '<' :: ch :: r0) (hu : ch ≠ 'u') (ho : ch ≠ 'o')
    (hg : 2 ≤ g.data.length) : goodPart (a ++ b ++ c ++ d ++ e ++ f ++ g) := by
  refine goodPart_shape
    (shape_concat _ _ ch _ (shape_concat _ _ ch _ (shape_concat _ _ ch _
      (shape_concat _ _ ch _ (shape_concat _ _ ch _ (shape_concat _ _ ch r0 ha)))))) ?_ hu ho
  simp only [List.length_append]
  omega

theorem render_shape (j : Json) :
    notion_block_to_html j = "" ∨ goodPart (notion_block_to_html j) := by
  rcases htype : j.get "type" with _ | jt
  · left
    rw [notion_block_to_html, htype]
    rfl
  · cases jt with
    | str s =>
      by_cases h1 : s = "paragraph"
      · subst h1
        rw [notion_block_to_html, htype]
        simp only [Option.some.injEq, String.reduceEq, reduceIte]
        split_ifs with ht
        · right
          exact goodPart_cat3 _ _ _ 'p' _ rfl (by decide) (by decide) (by decide)
        · left
          rfl
      · by_cases h2 : s = "heading_1"
        · subst h2
          rw [notion_block_to_html, htype]
          simp only [Option.some.injEq, String.reduceEq, reduceIte]
          right
          exact goodPart_cat3 _ _ _ 'h' _ rfl (by decide) (by decide) (by decide)
        · by_cases h3 : s = "heading_2"
          · subst h3
            rw [notion_block_to_html, htype]
            simp only [Option.some.injEq, String.reduceEq, reduceIte]
            right
            exact goodPart_cat3 _ _ _ 'h' _ rfl (by decide) (by decide) (by decide)
          · by_cases h4 : s = "heading_3"
            · subst h4
              rw [notion_block_to_html, htype]
              simp only [Option.some.injEq, String.reduceEq, reduceIte]
              right
              exact goodPart_cat3 _ _ _ 'h' _ rfl (by decide) (by decide) (by decide)
            · by_cases h5 : s = "code"
              · subst h5
                rw [notion_block_to_html, htype]
                simp only [Option.some.injEq, String.reduceEq, reduceIte]
                right
                exact goodPart_cat5 _ _ _ _ _ 'p' _ rfl (by decide) (by decide) (by decide)
              · by_cases h6 : s = "bulleted_list_item"
                · subst h6
                  rw [notion_block_to_html, htype]
                  simp only [Option.some.injEq, String.reduceEq, reduceIte]
                  right
                  refine goodPart_of_li ?_
                  unfold headSeg
                  rfl
                · by_cases h7 : s = "numbered_list_item"
                  · subst h7
                    rw [notion_block_to_html, htype]
                    simp only [Option.some.injEq, String.reduceEq, reduceIte]
                    right
                    refine goodPart_of_li ?_
                    unfold headSeg
                    rfl
                  · by_cases h8 : s = "quote"
                    · subst h8
                      rw [notion_block_to_html, htype]
                      simp only [Option.some.injEq, String.reduceEq, reduceIte]
                      right
                      exact goodPart_cat3 _ _ _ 'b' _ rfl (by decide) (by decide) (by decide)
                    · by_cases h9 : s = "divider"
                      · subst h9
                        rw [notion_block_to_html, htype]
                        simp only [Option.some.injEq, String.reduceEq, reduceIte]
                        right
                        exact goodPart_shape rfl (by decide) (by decide) (by decide)
                      · by_cases h10 : s = "callout"
                        · subst h10
                          rw [notion_block_to_html, htype]
                          simp only [Option.some.injEq, String.reduceEq, reduceIte]
                          right
                          exact goodPart_cat5 _ _ _ _ _ 'd' _ rfl (by decide) (by decide) (by decide)
                        · by_cases h11 : s = "toggle"
                          · subst h11
                            rw [notion_block_to_html, htype]
                            simp only [Option.some.injEq, String.reduceEq, reduceIte]
                            right
                            exact goodPart_cat3 _ _ _ 'd' _ rfl (by decide) (by decide) (by decide)
                          · by_cases h12 : s = "image"
                            · subst h12
                              rw [notion_block_to_html, htype]
                              simp only [Option.some.injEq, String.reduceEq, reduceIte]
                              rcases himg : pyOr
                                  (((((j.get "image").getD (Json.obj [])).get "file").getD
                                      (Json.obj [])).get "url")
                                  (((((j.get "image").getD (Json.obj [])).get "external").getD
                                      (Json.obj [])).get "url") with _ | u
                              · simp only [himg]
                                exact Or.inl trivial
                              · simp only [himg]
                                split_ifs with hu1 hc1
                                · right
                                  exact goodPart_cat7 _ _ _ _ _ _ _ 'f' _ rfl
                                    (by decide) (by decide) (by decide)
                                · right
                                  exact goodPart_cat3 _ _ _ 'i' _ rfl
                                    (by decide) (by decide) (by decide)
                                · left
                                  rfl
                            · left
                              rw [notion_block_to_html, htype]
                              simp only [Option.some.injEq, h1, h2, h3, h4, h5, h6, h7, h8,
                                h9, h10, h11, h12, if_false]
    | null =>
      left
      rw [notion_block_to_html, htype]
      rfl
    | bool bb =>
      left
      rw [notion_block_to_html, htype]
      rfl
    | arr e =>
      left
      rw [notion_block_to_html, htype]
      rfl
    | obj f =>
      left
      rw [notion_block_to_html, htype]
      rfl

theorem wrapList_good {buf : List String} (hb : buf ≠ [])
    (hinv : ∀ s ∈ buf, headSeg "<li>".data s.data) (ct : Option String) :
    goodPart (wrapList ct buf) := by
  rcases buf with _ | ⟨s0, rest⟩
  · exact absurd rfl hb
  · have h0 := hinv s0 (List.mem_cons_self s0 rest)
    have hjoin : hasSeg "<li>".data (String.join (s0 :: rest)).data := by
      rw [join_cons, str_data_append]
      exact hasSeg_appendR _ (hasSeg_of_headSeg h0)
    apply goodPart_of_hasSeg
    unfold wrapList
    simp only [str_data_append]
    apply hasSeg_appendR
    apply hasSeg_appendR
    apply hasSeg_appendR
    apply hasSeg_appendL
    exact hjoin

theorem join_htmlParts_good (bs : List BTree)
    (h1 : bufInv (walkBlocks bs ⟨[], [], none⟩))
    (h2 : ∀ p ∈ (walkBlocks bs ⟨[], [], none⟩).html_parts,
      p ∈ ([] : List String) ∨ goodPart p)
    (hne : blocks_to_html bs ≠ "") : goodPart (blocks_to_html bs) := by
  have hgood : ∀ p ∈ htmlParts bs, goodPart p := by
    rw [htmlParts_flush]
    intro p hp
    rcases List.mem_append.mp hp with h | h
    · rcases h2 p h with h0 | h0
      · exact absurd h0 (List.not_mem_nil p)
      · exact h0
    · rw [flushOf] at h
      split_ifs at h with hbf
      · rw [List.mem_singleton.mp h]
        exact wrapList_good hbf h1 _
      · exact absurd h (List.not_mem_nil p)
  rw [blocks_to_html_join] at hne ⊢
  rcases hlist : htmlParts bs with _ | ⟨p0, prest⟩
  · rw [hlist, join_nil] at hne
    exact absurd rfl hne
  · rw [hlist] at hgood
    obtain ⟨hl0, hg0⟩ := hgood p0 (List.mem_cons_self p0 prest)
    rw [join_cons]
    unfold goodPart
    constructor
    · rw [str_data_append, List.length_append]
      omega
    · intro hc
      rw [str_data_append] at hc ⊢
      rcases hc with h | h
      · exact hasSeg_appendR _ (hg0 (Or.inl (headSeg_split h hl0)))
      · exact hasSeg_appendR _ (hg0 (Or.inr (headSeg_split h hl0)))

theorem walkGood : ∀ n : Nat, ∀ blocks : List BTree, sizeOf blocks ≤ n →
    ∀ st : WalkSt, bufInv st →
      bufInv (walkBlocks blocks st) ∧
      (∀ p ∈ (walkBlocks blocks st).html_parts, p ∈ st.html_parts ∨ goodPart p) := by
  intro n
  induction n with
  | zero =>
    intro blocks hsz
    exfalso
    cases blocks with
    | nil => simp at hsz
    | cons b r =>
      simp only [List.cons.sizeOf_spec] at hsz
      omega
  | succ n ih =>
    intro blocks hsz st hinv
    cases blocks with
    | nil =>
      rw [walkBlocks_nil]
      exact ⟨hinv, fun p hp => Or.inl hp⟩
    | cons b rest =>
      obtain ⟨bd, bc⟩ := b
      obtain ⟨P, B, C⟩ := st
      simp only [List.cons.sizeOf_spec, BTree.node.sizeOf_spec] at hsz
      have hszc : sizeOf bc ≤ n := by omega
      have hszr : sizeOf rest ≤ n := by omega
      have hrec := ih bc hszc ⟨[], [], none⟩ (fun s hs => absurd hs (List.not_mem_nil s))
      have hchild : ∀ p ∈ childParts (BTree.node bd bc), goodPart p := by
        intro p hp
        rw [childParts] at hp
        split_ifs at hp with hch
        · rw [List.mem_singleton.mp hp]
          rw [childHtml] at hch ⊢
          split_ifs at hch ⊢ with htr
          · exact join_htmlParts_good bc hrec.1 hrec.2 hch
          · exact absurd rfl hch
        · exact absurd hp (List.not_mem_nil p)
      have hflush : ∀ p ∈ flushOf ⟨P, B, C⟩, goodPart p := by
        intro p hp
        rw [flushOf] at hp
        split_ifs at hp with hbf
        · rw [List.mem_singleton.mp hp]
          exact wrapList_good hbf hinv C
        · exact absurd hp (List.not_mem_nil p)
      have hhp : ∀ p ∈ hParts (BTree.node bd bc), goodPart p := by
        intro p hp
        rw [hParts] at hp
        split_ifs at hp with hne
        · rw [List.mem_singleton.mp hp]
          rcases render_shape (BTree.node bd bc).data with h | h
          · exact absurd h hne
          · exact h
        · exact absurd hp (List.not_mem_nil p)
      have hstep : bufInv (processBlock (BTree.node bd bc) ⟨P, B, C⟩) ∧
          ∀ p ∈ (processBlock (BTree.node bd bc) ⟨P, B, C⟩).html_parts,
            p ∈ P ∨ goodPart p := by
        cases hk : listKindOf (BTree.node bd bc) with
        | some t =>
          by_cases hC : C = some t
          · rw [processBlock_same_kind hk P B C hC]
            constructor
            · intro s hs
              rcases List.mem_append.mp hs with h | h
              · exact hinv s h
              · rw [List.mem_singleton.mp h]
                exact liOf_kind hk
            · intro p hp
              rcases List.mem_append.mp hp with h | h
              · exact Or.inl h
              · exact Or.inr (hchild p h)
          · rw [processBlock_kind_change hk P B C hC]
            constructor
            · intro s hs
              rw [List.mem_singleton.mp hs]
              exact liOf_kind hk
            · intro p hp
              rcases List.mem_append.mp hp with h | h
              · rcases List.mem_append.mp h with h2 | h2
                · exact Or.inl h2
                · exact Or.inr (hflush p h2)
              · exact Or.inr (hchild p h)
        | none =>
          rw [processBlock_nonlist hk P B C]
          constructor
          · intro s hs
            exact absurd hs (List.not_mem_nil s)
          · intro p hp
            rcases List.mem_append.mp hp with h | h
            · rcases List.mem_append.mp h with h2 | h2
              · rcases List.mem_append.mp h2 with h3 | h3
                · exact Or.inl h3
                · exact Or.inr (hflush p h3)
              · exact Or.inr (hhp p h2)
            · exact Or.inr (hchild p h)
      rw [walkBlocks_cons]
      obtain ⟨hinv2, hparts2⟩ :=
        ih rest hszr (processBlock (BTree.node bd bc) ⟨P, B, C⟩) hstep.1
      refine ⟨hinv2, fun p hp => ?_⟩
      rcases hparts2 p hp with h | h
      · exact hstep.2 p h
      · exact Or.inr h

theorem htmlParts_good (blocks : List BTree) : ∀ p ∈ htmlParts blocks, goodPart p := by
  obtain ⟨hinv, hparts⟩ :=
    walkGood (sizeOf blocks) blocks (Nat.le_refl _) ⟨[], [], none⟩
      (fun s hs => absurd hs (List.not_mem_nil s))
  rw [htmlParts_flush]
  intro p hp
  rcases List.mem_append.mp hp with h | h
  · rcases hparts p h with h0 | h0
    · exact absurd h0 (List.not_mem_nil p)
    · exact h0
  · rw [flushOf] at h
    split_ifs at h with hbf
    · rw [List.mem_singleton.mp h]
      exact wrapList_good hbf hinv _
    · exact absurd h (List.not_mem_nil p)

/-- C10: the walker never emits an empty list container — every fragment
`blocks_to_html` joins into its output that begins like a list container
(with `<ul>` or `<ol>`) contains at least one `<li>` element, because a
container is only flushed when the list buffer is non-empty and every
list-item block contributes an `<li>`-leading fragment to the buffer. -/
theorem C10_no_empty_container (blocks : List BTree) (p : String)
    (hp : p ∈ htmlParts blocks)
    (hc : headSeg "<ul>".data p.data ∨ headSeg "<ol>".data p.data) :
    hasSeg "<li>".data p.data := by
  obtain ⟨hlen, hgood⟩ := htmlParts_good blocks p hp
  exact hgood hc

theorem C10_witness : hasSeg "<li>".data "<ul><li>a</li></ul>".data := by
  have hmem : htmlParts [mkBullet "a" []] = ["<ul><li>a</li></ul>"] := by
    rw [htmlParts_flush, walkBlocks_cons, walkBlocks_nil,
      processBlock_kind_change (show listKindOf (mkBullet "a" []) = some "ul" from rfl)
        [] [] none (by decide)]
    rfl
  exact C10_no_empty_container [mkBullet "a" []] "<ul><li>a</li></ul>"
    (by rw [hmem]; exact List.mem_singleton.mpr rfl)
    (Or.inl (by unfold headSeg; rfl))
